import Mathlib

/-!
# SWRMeter: lookup-table interpolation and the SH1106 page renderer

A shallow embedding of `LUT.cpp` (`lookupTable`) and of `TinySH1106.cpp`
(the page-addressed drawing routines), for the AVR target named by the
sources (ATtiny / ATmega328): `int` and `unsigned int` are 16 bits wide,
`long` is 32 bits wide, plain `char` is a signed 8-bit type.

Machine integers are unbounded `Nat`/`Int` values with the reductions modulo
`2^16` and `2^8` written out wherever the C code converts or wraps.
-/

namespace SWRMeter

/-! ## 16-bit conversions -/

/-- Conversion of a C `int` to `unsigned int` on the 16-bit target
(value modulo `2^16`). -/
def toU16 (i : Int) : Nat := (i % 65536).toNat

/-- Conversion of an `unsigned int` word to `int` on the 16-bit target
(two's complement reading of the low 16 bits). -/
def toI16 (n : Nat) : Int :=
  if n % 65536 < 32768 then ((n % 65536 : Nat) : Int) else ((n % 65536 : Nat) : Int) - 65536

/-! ## LUT.cpp -/

/-- The avr-libc read `pgm_read_word(&tblPtr[i])`. The table is the `int` array
`tblPtr`; the read delivers the stored word as a `uint16_t`, that is as an
unsigned 16-bit value. A read outside the array has no value. -/
def pgm_read_word (tblPtr : List Int) (i : Nat) : Option Nat :=
  (tblPtr[i]?).map toU16

/-- The search loop of `lookupTable` (LUT.cpp line 58):
`for (; lookup <= pgm_read_word(&tblPtr[xIndex]); xIndex -= 2);`
The comparison is between `int lookup` and a `uint16_t`, so both sides are
compared as unsigned 16-bit values; `xIndex` is an `unsigned int` and
`xIndex -= 2` wraps modulo `2^16`. The first argument bounds the number of
loop tests; the result is the value of `xIndex` when the loop exits. -/
def searchLoop (tblPtr : List Int) (lookup : Int) : Nat → Nat → Option Nat
  | 0, _ => none
  | fuel + 1, xIndex =>
    match pgm_read_word tblPtr xIndex with
    | none => none
    | some xw =>
      if toU16 lookup ≤ xw then searchLoop tblPtr lookup fuel ((xIndex + 65534) % 65536)
      else some xIndex

/-- The interpolation arithmetic of `lookupTable` (LUT.cpp lines 73 to 84) for
`lookup` different from `xval`. `delBPInput`, `delBP` and `DeltaYInput` are
`unsigned int`; the product `(yUpper - yLower) * delBPInput` is an
`int * unsigned int` product and is therefore formed in 16-bit unsigned
arithmetic, and only its (already reduced) value is converted to `long`
before the division. A zero divisor has no value. -/
def interpolate (lookup xval yLower yUpper : Int) (xNext : Nat) : Option Int :=
  let delBPInput := toU16 (lookup - xval)
  let delBP := (xNext + 65536 - toU16 xval) % 65536
  if delBP = 0 then none
  else if yUpper > yLower then
    let DeltaYInput := (((toU16 (yUpper - yLower) * delBPInput) % 65536) / delBP) % 65536
    some (toI16 (toU16 yLower + DeltaYInput))
  else
    let DeltaYInput := (((toU16 (yLower - yUpper) * delBPInput) % 65536) / delBP) % 65536
    some (toI16 (toU16 yLower + 65536 - DeltaYInput))

/-- The function `int lookupTable(int tblPtr[], int lookup)` of LUT.cpp.
`tblPtr[0]` is the breakpoint count, `tblPtr[2i+1]` and `tblPtr[2i+2]` are
`x_i` and `y_i`. Both clamp tests compare `int lookup` with the `uint16_t`
delivered by `pgm_read_word`, hence as unsigned 16-bit values. The result is
`none` when a read falls outside the array, when the divisor is zero, or
when the search loop does not exit within `32768` tests. -/
def lookupTable (tblPtr : List Int) (lookup : Int) : Option Int := do
  let cnt ← pgm_read_word tblPtr 0
  let xIndex := (cnt * 2 + 65535) % 65536
  let xLast ← pgm_read_word tblPtr xIndex
  if toU16 lookup ≥ xLast then
    let w ← pgm_read_word tblPtr ((xIndex + 1) % 65536)
    pure (toI16 w)
  else
    let xFirst ← pgm_read_word tblPtr 1
    if toU16 lookup ≤ xFirst then
      let w ← pgm_read_word tblPtr 2
      pure (toI16 w)
    else
      let xIndex ← searchLoop tblPtr lookup 32768 ((xIndex + 65534) % 65536)
      let xw ← pgm_read_word tblPtr xIndex
      let xval := toI16 xw
      let yLower ← (pgm_read_word tblPtr ((xIndex + 1) % 65536)).map toI16
      let yUpper ← (pgm_read_word tblPtr ((xIndex + 3) % 65536)).map toI16
      if lookup = xval then
        pure yLower
      else
        let xNext ← pgm_read_word tblPtr ((xIndex + 2) % 65536)
        interpolate lookup xval yLower yUpper xNext

/-! ## TinySH1106.h: command bytes and panel values -/

def SINGLE_COMMAND : Nat := 0x80
def MULTI_COMMAND : Nat := 0x00
def SINGLE_DATA : Nat := 0xC0
def MULTI_DATA : Nat := 0x40
def DISPLAY_OFF : Nat := 0xAE
def DISPLAY_ON : Nat := 0xAF
def SET_CONTRAST : Nat := 0x81
def SEG_REMAP_REV : Nat := 0xA1
def SET_SCAN_DEC : Nat := 0xC8
def DISPLAY_OFFSET : Nat := 0xD3
def SET_MUX : Nat := 0xA8
def SET_COL_HI : Nat := 0x10
def SET_COL_LO : Nat := 0x00
def SET_PAGE : Nat := 0xB0
def RMW : Nat := 0xE0
def RMW_END : Nat := 0xEE
def DEFAULT_OFFSET : Nat := 4

/-! ## The two-wire bus -/

/-- One operation on the two-wire bus as issued by the driver.
`transmission addr bytes` is `Wire.beginTransmission(addr)`, one
`Wire.write(b)` for each byte of `bytes` in order, `Wire.endTransmission()`.
`requestFrom addr n` is `Wire.requestFrom(addr, n)` together with the
`Wire.read()` calls that consume the answer. -/
inductive BusOp where
  | transmission (addr : Nat) (bytes : List Nat)
  | requestFrom (addr : Nat) (quantity : Nat)
  deriving DecidableEq, Repr

/-- The state of the global `Wire` object as the driver sees it: the
operations issued so far (oldest first), the stream of bytes that the display
controller returns to reads, and the number of bytes already consumed from
that stream. -/
structure Wire where
  sent : List BusOp
  rx : Nat → Nat
  rd : Nat

/-- The private data members of `class TinySH1106` (TinySH1106.h lines 76 to
82). `xPos` and `yPos` are `char` members and `offset`, `wireAddr` are
`uint8_t` members; each is held as its 8-bit pattern. -/
structure TinySH1106 where
  wireAddr : Nat
  xPos : Nat
  yPos : Nat
  offset : Nat
  deriving DecidableEq, Repr

/-- The contents of `font.h`, which the driver includes and which is taken as
a parameter: the macros `FONT_WIDTH`, `FONT_HEIGHT`, `FONT_KERN`, the macro
`CHAR_INDEX` applied to the integer value of a character, and the glyph table
`CharMap[row][k]`. -/
structure Font where
  FONT_WIDTH : Nat
  FONT_HEIGHT : Nat
  FONT_KERN : Nat
  CHAR_INDEX : Int → Nat
  CharMap : Nat → Nat → Nat

/-- Value of a plain (signed) `char` with bit pattern `b`. -/
def toI8 (b : Nat) : Int :=
  if b % 256 < 128 then ((b % 256 : Nat) : Int) else ((b % 256 : Nat) : Int) - 256

/-- Integer promotion of a plain (signed) `char` with bit pattern `b`, given
as the 16-bit two's complement pattern of the resulting `int`. -/
def promoteChar (b : Nat) : Nat :=
  if b % 256 < 128 then b % 256 else b % 256 + 0xFF00

/-- The expression `v >> 4` on a (signed) `int` given by its 16-bit pattern:
an arithmetic shift, the sign bit is copied into the vacated bits. -/
def sar4 (v : Nat) : Nat :=
  if v % 65536 < 32768 then (v % 65536) >>> 4 else ((v % 65536) >>> 4) ||| 0xF000

/-- The avr-libc read `pgm_read_byte(&s[i])` of an `unsigned char` array. -/
def pgm_read_byte (s : Nat → Nat) (i : Nat) : Nat := s i % 256

namespace TinySH1106

/-- The method `void sendCommand(unsigned char com)` (TinySH1106.cpp line 377). -/
def sendCommand (self : TinySH1106) (com : Nat) (w : Wire) : Wire :=
  { w with sent := w.sent ++ [BusOp.transmission self.wireAddr [SINGLE_COMMAND, com % 256]] }

/-- The method `void sendData(unsigned char com)` (TinySH1106.cpp line 385). -/
def sendData (self : TinySH1106) (com : Nat) (w : Wire) : Wire :=
  { w with sent := w.sent ++ [BusOp.transmission self.wireAddr [SINGLE_DATA, com % 256]] }

/-- The method `char readData()` (TinySH1106.cpp line 393): two bytes are
requested, the first one is dropped and the second one is returned. -/
def readData (self : TinySH1106) (w : Wire) : Nat × Wire :=
  (w.rx (w.rd + 1) % 256,
   { w with sent := w.sent ++ [BusOp.requestFrom self.wireAddr 2], rd := w.rd + 2 })

/-- The method `void setPage(char p)` (TinySH1106.cpp line 257):
`sendCommand(SET_PAGE|(p&0x07))`. -/
def setPage (self : TinySH1106) (p : Nat) (w : Wire) : Wire :=
  self.sendCommand (SET_PAGE ||| (p &&& 0x07)) w

/-- The method `void setCol(char c)` (TinySH1106.cpp line 352). The argument is
stored into the (signed) `char c`, `c = c + offset` is again reduced to
8 bits, and in `c & 0x0F` and `c >> 4` the `char` is promoted to `int`;
`Wire.write` keeps the low 8 bits of what it is given. -/
def setCol (self : TinySH1106) (c : Nat) (w : Wire) : Wire :=
  let c := (c % 256 + self.offset) % 256
  { w with sent := w.sent ++ [BusOp.transmission self.wireAddr
      [MULTI_COMMAND,
       (SET_COL_LO ||| (promoteChar c &&& 0x0F)) % 256,
       (SET_COL_HI ||| sar4 (promoteChar c)) % 256]] }

/-- The method `void setCursor(uint8_t x, uint8_t y)` (TinySH1106.cpp line 238). -/
def setCursor (self : TinySH1106) (x y : Nat) : TinySH1106 :=
  { self with xPos := x % 256, yPos := y % 256 }

/-- The method `void setOffset(uint8_t off)` (TinySH1106.cpp line 244). -/
def setOffset (self : TinySH1106) (off : Nat) : TinySH1106 :=
  { self with offset := off % 256 }

end TinySH1106

/-! ### The packed page register of `drawBitmap` and `drawChar`

Both functions define the same seven accessors on the local
`uint8_t drawBitmapReg` (format `xsss pooo`) and run the same prologue
(lines 75 to 88 and 149 to 162). -/

def SET_PAGE_OFFSET (drawBitmapReg o : Nat) : Nat := (drawBitmapReg ||| (o &&& 0x07)) % 256
def GET_PAGE_OFFSET (drawBitmapReg : Nat) : Nat := drawBitmapReg &&& 0x07
def SET_PAGE_START (drawBitmapReg y : Nat) : Nat :=
  (drawBitmapReg ||| (((y / 8) &&& 0x07) <<< 4)) % 256
def GET_PAGE_START (drawBitmapReg : Nat) : Nat := (drawBitmapReg &&& 0x70) >>> 4
def SET_PAGE_SPLIT (drawBitmapReg : Nat) : Nat := (drawBitmapReg ||| 0x08) % 256
def CLEAR_PAGE_SPLIT (drawBitmapReg : Nat) : Nat := drawBitmapReg &&& 0xF7
def GET_PAGE_SPLIT (drawBitmapReg : Nat) : Nat := drawBitmapReg &&& 0x08

/-- The value of `drawBitmapReg` after the prologue: `SET_PAGE_OFFSET(y)`,
`SET_PAGE_START(y)` on the zero register, then the split bit cleared when the
offset field is zero and set otherwise. -/
def drawBitmapReg (y : Nat) : Nat :=
  let reg := SET_PAGE_START (SET_PAGE_OFFSET 0 y) y
  if GET_PAGE_OFFSET reg = 0 then CLEAR_PAGE_SPLIT reg else SET_PAGE_SPLIT reg

/-- The value of the local `uint8_t pagesNeeded` after the prologue, for content
height `h` (`s[1]` in `drawBitmap`, `FONT_HEIGHT` in `drawChar`):
`(h-1)/8` in `int` arithmetic (truncating, so `0` for `h = 0`), then
incremented by one when the offset field is zero and by two otherwise. -/
def pagesNeeded (h y : Nat) : Nat :=
  let reg := SET_PAGE_START (SET_PAGE_OFFSET 0 y) y
  let pagesNeeded := ((h - 1) / 8) % 256
  if GET_PAGE_OFFSET reg = 0 then (pagesNeeded + 1) % 256 else (pagesNeeded + 2) % 256

namespace TinySH1106

/-- The byte handed to `sendData` by the body of the column loop of
`drawBitmap` (TinySH1106.cpp lines 98 to 123) on page `p`, column `col`, where
`j` is the value just returned by `readData` and `reg`, `pn` are the values of
`drawBitmapReg` and `pagesNeeded`. The shifts act on the promoted `int`; the
assignments to `uint8_t bits` and the `unsigned char` parameter of `sendData`
keep the low 8 bits. -/
def drawBitmapByte (s : Nat → Nat) (reg pn p col _j : Nat) : Nat :=
  if p = GET_PAGE_START reg then
    let bits := pgm_read_byte s (col + 2)
    (bits <<< GET_PAGE_OFFSET reg) % 256
  else if p < GET_PAGE_START reg + pn - 1 then
    let bits := (pgm_read_byte s ((col + 2) + ((p - GET_PAGE_START reg) - 1) * pgm_read_byte s 0)
                  >>> (8 - GET_PAGE_OFFSET reg)) % 256
    let bits := (bits ||| ((pgm_read_byte s ((col + 2) + (p - GET_PAGE_START reg) * pgm_read_byte s 0)
                  <<< GET_PAGE_OFFSET reg) &&& 0xFF)) % 256
    bits
  else if GET_PAGE_SPLIT reg ≠ 0 then
    let bits := pgm_read_byte s ((col + 2) + ((p - GET_PAGE_START reg) - 1) * pgm_read_byte s 0)
    (bits >>> (8 - GET_PAGE_OFFSET reg)) % 256
  else
    let bits := pgm_read_byte s ((col + 2) + (p - GET_PAGE_START reg) * pgm_read_byte s 0)
    bits

/-- One pass of the column loop of `drawBitmap` (lines 96 to 124):
`uint8_t j=readData();` followed by the `sendData` of the branch taken. -/
def drawBitmapCol (self : TinySH1106) (s : Nat → Nat) (reg pn p : Nat) (w : Wire) (col : Nat) :
    Wire :=
  let r := self.readData w
  let j := r.1
  self.sendData (drawBitmapByte s reg pn p col j) r.2

/-- One pass of the page loop of `drawBitmap` (lines 90 to 126). The column
counter is a `uint8_t` running from `0` below `s[0]`, which is at most `255`. -/
def drawBitmapPage (self : TinySH1106) (s : Nat → Nat) (x reg pn : Nat) (w : Wire) (p : Nat) :
    Wire :=
  let w := self.setPage p w
  let w := self.setCol x w
  let w := self.sendCommand RMW w
  let w := (List.range (pgm_read_byte s 0)).foldl (drawBitmapCol self s reg pn p) w
  self.sendCommand RMW_END w

/-- The method `void drawBitmap(const unsigned char s[], uint8_t x, uint8_t y)`
(TinySH1106.cpp lines 63 to 135). The page counter `p` is a `uint8_t` that runs
from `GET_PAGE_START` below `GET_PAGE_START+pagesNeeded`, which is at most
`7 + 33`, so it never wraps. -/
def drawBitmap (self : TinySH1106) (s : Nat → Nat) (x y : Nat) (w : Wire) : Wire :=
  let reg := drawBitmapReg (y % 256)
  let pn := pagesNeeded (pgm_read_byte s 1) (y % 256)
  (List.range' (GET_PAGE_START reg) pn).foldl (drawBitmapPage self s (x % 256) reg pn) w

/-- The byte handed to `sendData` by the body of the column loop of `drawChar`
(TinySH1106.cpp lines 172 to 197). The glyph row is
`CharMap[CHAR_INDEX(c)]` with `c` an `unsigned char`; the first page reads
index `col`, the other pages read index `(col+2)+...` as written in the
source. -/
def drawCharByte (f : Font) (c reg pn p col _j : Nat) : Nat :=
  let glyph := f.CharMap (f.CHAR_INDEX ((c % 256 : Nat) : Int))
  if p = GET_PAGE_START reg then
    let bits := pgm_read_byte glyph col
    (bits <<< GET_PAGE_OFFSET reg) % 256
  else if p < GET_PAGE_START reg + pn - 1 then
    let bits := (pgm_read_byte glyph ((col + 2) + ((p - GET_PAGE_START reg) - 1) * f.FONT_WIDTH)
                  >>> (8 - GET_PAGE_OFFSET reg)) % 256
    let bits := (bits ||| ((pgm_read_byte glyph ((col + 2) + (p - GET_PAGE_START reg) * f.FONT_WIDTH)
                  <<< GET_PAGE_OFFSET reg) &&& 0xFF)) % 256
    bits
  else if GET_PAGE_SPLIT reg ≠ 0 then
    let bits := pgm_read_byte glyph ((col + 2) + ((p - GET_PAGE_START reg) - 1) * f.FONT_WIDTH)
    (bits >>> (8 - GET_PAGE_OFFSET reg)) % 256
  else
    let bits := pgm_read_byte glyph ((col + 2) + (p - GET_PAGE_START reg) * f.FONT_WIDTH)
    bits

/-- One pass of the column loop of `drawChar` (lines 170 to 198). -/
def drawCharCol (self : TinySH1106) (f : Font) (c reg pn p : Nat) (w : Wire) (col : Nat) : Wire :=
  let r := self.readData w
  let j := r.1
  self.sendData (drawCharByte f c reg pn p col j) r.2

/-- One pass of the page loop of `drawChar` (lines 164 to 200). The column
counter is a `uint8_t` compared with `FONT_WIDTH`; the loop is the one
written here for `FONT_WIDTH` at most `255`. -/
def drawCharPage (self : TinySH1106) (f : Font) (c x reg pn : Nat) (w : Wire) (p : Nat) : Wire :=
  let w := self.setPage p w
  let w := self.setCol x w
  let w := self.sendCommand RMW w
  let w := (List.range f.FONT_WIDTH).foldl (drawCharCol self f c reg pn p) w
  self.sendCommand RMW_END w

/-- The method `void drawChar(const unsigned char c, uint8_t x, uint8_t y)`
(TinySH1106.cpp lines 137 to 209). -/
def drawChar (self : TinySH1106) (f : Font) (c x y : Nat) (w : Wire) : Wire :=
  let reg := drawBitmapReg (y % 256)
  let pn := pagesNeeded f.FONT_HEIGHT (y % 256)
  (List.range' (GET_PAGE_START reg) pn).foldl (drawCharPage self f c (x % 256) reg pn) w

/-- One pass of the column loop of `PlotChar` (lines 221 to 227); here `c` is
a plain (signed) `char`. -/
def PlotCharCol (self : TinySH1106) (f : Font) (c p : Nat) (w : Wire) (col : Nat) : Wire :=
  let r := self.readData w
  let _j := r.1
  self.sendData (pgm_read_byte (f.CharMap (f.CHAR_INDEX (toI8 c))) (col + p * f.FONT_WIDTH)) r.2

/-- One pass of the page loop of `PlotChar` (lines 214 to 229):
`setPage(p+y)`, `setCol(x)`, `sendCommand(RMW)`, the column loop,
`sendCommand(RMW_END)`. -/
def PlotCharPage (self : TinySH1106) (f : Font) (c x y : Nat) (w : Wire) (p : Nat) : Wire :=
  let w := self.setPage (p + y) w
  let w := self.setCol x w
  let w := self.sendCommand RMW w
  let w := (List.range f.FONT_WIDTH).foldl (PlotCharCol self f c p) w
  self.sendCommand RMW_END w

/-- The method `void PlotChar(char c, int x, int y)` (TinySH1106.cpp lines 211 to
230): the page loop runs for `p = 0` and `p = 1`. The arguments are given as
8-bit patterns (`print` passes the `char` members `xPos` and `yPos`, and
`setPage`, `setCol` reduce their `char` parameter to 8 bits again). -/
def PlotChar (self : TinySH1106) (f : Font) (c x y : Nat) (w : Wire) : Wire :=
  (List.range 2).foldl (PlotCharPage self f c x y) w

/-- The loop of `print` (TinySH1106.cpp lines 264 to 268). The first argument is
the number of passes that remain (`132 - i`), `i` is the loop counter and `c`
is the character array: `if (c[i] == 0) return;`, `PlotChar(c[i], xPos, yPos);`,
`xPos = xPos + FONT_WIDTH+FONT_KERN;` (stored into the `char` member). -/
def printLoop (f : Font) (c : Nat → Nat) : Nat → Nat → TinySH1106 → Wire → TinySH1106 × Wire
  | 0, _, self, w => (self, w)
  | n + 1, i, self, w =>
    if c i % 256 = 0 then (self, w)
    else
      let w := self.PlotChar f (c i % 256) self.xPos self.yPos w
      let self := { self with xPos := (self.xPos + f.FONT_WIDTH + f.FONT_KERN) % 256 }
      printLoop f c n (i + 1) self w

/-- The method `void print(char c[])` (TinySH1106.cpp lines 262 to 269). -/
def print (self : TinySH1106) (f : Font) (c : Nat → Nat) (w : Wire) : TinySH1106 × Wire :=
  printLoop f c 132 0 self w

/-- The method `void setMuxRatio(char m)` (TinySH1106.cpp line 361): one
transmission of `MULTI_COMMAND`, `SET_MUX`, `m & 0x3F`. -/
def setMuxRatio (self : TinySH1106) (m : Nat) (w : Wire) : Wire :=
  { w with sent := w.sent ++ [BusOp.transmission self.wireAddr
      [MULTI_COMMAND, SET_MUX, (promoteChar m &&& 0x3F) % 256]] }

/-- The method `void setContrast(char contrast)` (TinySH1106.cpp line 369): one
transmission of `SINGLE_COMMAND`, `SET_CONTRAST`, `contrast`. -/
def setContrast (self : TinySH1106) (contrast : Nat) (w : Wire) : Wire :=
  { w with sent := w.sent ++ [BusOp.transmission self.wireAddr
      [SINGLE_COMMAND, SET_CONTRAST, contrast % 256]] }

/-- The method `void initDisplay()` (TinySH1106.cpp lines 34 to 42). The last
statement, `setOffset(DEFAULT_OFFSET)`, assigns the data member `offset` and
issues nothing on the bus. -/
def initDisplay (self : TinySH1106) (w : Wire) : TinySH1106 × Wire :=
  let w := self.sendCommand DISPLAY_OFF w
  let w := self.sendCommand SEG_REMAP_REV w
  let w := self.sendCommand SET_SCAN_DEC w
  let w := self.sendCommand DISPLAY_ON w
  let w := self.setMuxRatio 0x3F w
  let w := self.setContrast 0xCF w
  (self.setOffset DEFAULT_OFFSET, w)

/-- One pass of the inner loop of `clear` (TinySH1106.cpp lines 407 to 412): one
transmission of `MULTI_DATA` followed by eight `Wire.write(0)`. -/
def clearBurst (self : TinySH1106) (w : Wire) (_q : Nat) : Wire :=
  { w with sent := w.sent ++ [BusOp.transmission self.wireAddr
      (MULTI_DATA :: (List.range 8).map (fun _ => 0))] }

/-- One pass of the page loop of `clear` (TinySH1106.cpp lines 402 to 413):
`sendCommand(SET_PAGE | page)`, `sendCommand(SET_COL_LO | 2)`,
`sendCommand(SET_COL_HI | 0)`, then sixteen bursts. -/
def clearPage (self : TinySH1106) (w : Wire) (page : Nat) : Wire :=
  let w := self.sendCommand (SET_PAGE ||| page) w
  let w := self.sendCommand (SET_COL_LO ||| 2) w
  let w := self.sendCommand (SET_COL_HI ||| 0) w
  (List.range 16).foldl (clearBurst self) w

/-- The method `void clear()` (TinySH1106.cpp lines 400 to 414). -/
def clear (self : TinySH1106) (w : Wire) : Wire :=
  (List.range 8).foldl (clearPage self) w

/-- The method `void begin()` (TinySH1106.cpp lines 346 to 350): `Wire.begin()`,
which sends nothing, then `initDisplay()` and `clear()`. -/
def begin (self : TinySH1106) (w : Wire) : TinySH1106 × Wire :=
  let r := self.initDisplay w
  (r.1, r.1.clear r.2)

end TinySH1106


/-! ## Bus traces -/

/-- The payload bytes of the single-data transmissions (`sendData`) among
`ops`, in the order in which they were sent. -/
def dataBytes (ops : List BusOp) : List Nat :=
  ops.filterMap fun op =>
    match op with
    | BusOp.transmission _ [m, b] => if m = SINGLE_DATA then some b else none
    | _ => none

/-- The bus operation issued by `sendCommand(com)`. -/
def commandOp (self : TinySH1106) (com : Nat) : BusOp :=
  BusOp.transmission self.wireAddr [SINGLE_COMMAND, com % 256]

/-- The bus operation issued by `sendData(com)`. -/
def dataOp (self : TinySH1106) (com : Nat) : BusOp :=
  BusOp.transmission self.wireAddr [SINGLE_DATA, com % 256]

/-- The bus operation issued by `setCol(c)`. -/
def setColOp (self : TinySH1106) (c : Nat) : BusOp :=
  BusOp.transmission self.wireAddr
    [MULTI_COMMAND,
     (SET_COL_LO ||| (promoteChar ((c % 256 + self.offset) % 256) &&& 0x0F)) % 256,
     (SET_COL_HI ||| sar4 (promoteChar ((c % 256 + self.offset) % 256))) % 256]

/-- The bus operations of one pass of the page loop of `drawBitmap`, page `p`:
page select, column select, `RMW`, then for each column a read request and a
data byte, then `RMW_END`. -/
def drawBitmapPageOps (self : TinySH1106) (s : Nat → Nat) (x reg pn p : Nat) : List BusOp :=
  [commandOp self (SET_PAGE ||| (p &&& 0x07)), setColOp self x, commandOp self RMW]
    ++ (List.range (pgm_read_byte s 0)).flatMap
        (fun col => [BusOp.requestFrom self.wireAddr 2,
                     dataOp self (TinySH1106.drawBitmapByte s reg pn p col 0)])
    ++ [commandOp self RMW_END]

/-- The bus operations of one call of `drawBitmap`. -/
def drawBitmapOps (self : TinySH1106) (s : Nat → Nat) (x y : Nat) : List BusOp :=
  (List.range' (GET_PAGE_START (drawBitmapReg (y % 256)))
      (pagesNeeded (pgm_read_byte s 1) (y % 256))).flatMap
    (drawBitmapPageOps self s (x % 256) (drawBitmapReg (y % 256))
      (pagesNeeded (pgm_read_byte s 1) (y % 256)))

/-- The bus operations of one pass of the page loop of `clear`. -/
def clearPageOps (self : TinySH1106) (page : Nat) : List BusOp :=
  [commandOp self (SET_PAGE ||| page), commandOp self (SET_COL_LO ||| 2),
   commandOp self (SET_COL_HI ||| 0)]
    ++ List.replicate 16 (BusOp.transmission self.wireAddr [MULTI_DATA, 0, 0, 0, 0, 0, 0, 0, 0])

/-- The bus operations of one call of `clear`. -/
def clearOps (self : TinySH1106) : List BusOp :=
  (List.range 8).flatMap (clearPageOps self)

/-- All bytes written in the transmissions among `ops`, in order. -/
def transmittedBytes (ops : List BusOp) : List Nat :=
  ops.flatMap fun op =>
    match op with
    | BusOp.transmission _ bytes => bytes
    | BusOp.requestFrom _ _ => []

/-- The payload bytes of the multi-data transmissions among `ops` (control byte
`MULTI_DATA` followed by data bytes), in order. -/
def multiDataBytes (ops : List BusOp) : List Nat :=
  ops.flatMap fun op =>
    match op with
    | BusOp.transmission _ (m :: bytes) => if m = MULTI_DATA then bytes else []
    | _ => []

/-- The column address selected by the command bytes `lo` (`SET_COL_LO | n`) and
`hi` (`SET_COL_HI | n`): the low nibbles of the two commands. -/
def columnAddress (lo hi : Nat) : Nat := (hi &&& 0x0F) * 16 + (lo &&& 0x0F)

/-- The page indices selected by the page-select commands (`SET_PAGE | n`, sent
by `setPage`) among `ops`, in order. -/
def selectedPages (ops : List BusOp) : List Nat :=
  ops.filterMap fun op =>
    match op with
    | BusOp.transmission _ [m, b] =>
      if m = SINGLE_COMMAND ∧ b &&& 0xF8 = SET_PAGE then some (b &&& 0x07) else none
    | _ => none

/-- The indices at which the body of the column loop of `drawBitmap` reads the
array `s` on page `p`, column `col` (TinySH1106.cpp lines 98 to 123): the
argument of each `pgm_read_byte` and index `0` for each use of `s[0]`. -/
def drawBitmapByteReads (s : Nat → Nat) (reg pn p col : Nat) : List Nat :=
  if p = GET_PAGE_START reg then [col + 2]
  else if p < GET_PAGE_START reg + pn - 1 then
    [0, (col + 2) + ((p - GET_PAGE_START reg) - 1) * pgm_read_byte s 0,
     0, (col + 2) + (p - GET_PAGE_START reg) * pgm_read_byte s 0]
  else if GET_PAGE_SPLIT reg ≠ 0 then
    [0, (col + 2) + ((p - GET_PAGE_START reg) - 1) * pgm_read_byte s 0]
  else
    [0, (col + 2) + (p - GET_PAGE_START reg) * pgm_read_byte s 0]

/-- All indices at which one call of `drawBitmap` reads the array `s`: `s[0]`
and `s[1]` in the prologue (lines 81, 82 and 85), `s[0]` in every test of the
column loop, and the reads of the loop body. -/
def drawBitmapReads (s : Nat → Nat) (y : Nat) : List Nat :=
  [0, 1, 1] ++
    (List.range' (GET_PAGE_START (drawBitmapReg (y % 256)))
        (pagesNeeded (pgm_read_byte s 1) (y % 256))).flatMap
      (fun p =>
        (List.range (pgm_read_byte s 0)).flatMap
            (fun col => 0 :: drawBitmapByteReads s (drawBitmapReg (y % 256))
              (pagesNeeded (pgm_read_byte s 1) (y % 256)) p col)
          ++ [0])

/-- The bus operations of one pass of the page loop of `PlotChar`, for `p = 0`
or `p = 1`: select page `(p + y) & 7`, select the column of `x`, `RMW`, then
for each of the `FONT_WIDTH` columns a read request and the glyph byte
`CharMap[CHAR_INDEX(c)][col + p * FONT_WIDTH]` as it is stored (not shifted),
then `RMW_END`. -/
def PlotCharPageOps (self : TinySH1106) (f : Font) (c x y p : Nat) : List BusOp :=
  [commandOp self (SET_PAGE ||| ((p + y) &&& 0x07)), setColOp self x, commandOp self RMW]
    ++ (List.range f.FONT_WIDTH).flatMap
        (fun col => [BusOp.requestFrom self.wireAddr 2,
                     dataOp self (pgm_read_byte (f.CharMap (f.CHAR_INDEX (toI8 c)))
                       (col + p * f.FONT_WIDTH))])
    ++ [commandOp self RMW_END]

/-- The bus operations of one call of `PlotChar`: the page pass for `p = 0`
followed by the page pass for `p = 1`. -/
def PlotCharOps (self : TinySH1106) (f : Font) (c x y : Nat) : List BusOp :=
  PlotCharPageOps self f c x y 0 ++ PlotCharPageOps self f c x y 1

/-! ## Well-formed tables -/

/-- The breakpoint abscissa `x_i`, stored at `tblPtr[2i+1]`. -/
def tblX (tblPtr : List Int) (i : Nat) : Int := tblPtr.getD (2 * i + 1) 0

/-- The breakpoint ordinate `y_i`, stored at `tblPtr[2i+2]`. -/
def tblY (tblPtr : List Int) (i : Nat) : Int := tblPtr.getD (2 * i + 2) 0

/-- A well-formed table with `count` breakpoints: `tblPtr[0]` is `count`, there
are at least two breakpoints, the array holds exactly `2 * count + 1` words,
every word is representable in the 16-bit `int`, and the `x_i` are strictly
ascending (as integers). -/
structure WellFormedTable (tblPtr : List Int) (count : Nat) : Prop where
  count_eq : tblPtr.getD 0 0 = (count : Int)
  two_le : 2 ≤ count
  length_eq : tblPtr.length = 2 * count + 1
  representable : ∀ v ∈ tblPtr, -32768 ≤ v ∧ v ≤ 32767
  ascending : ∀ i, i + 1 < count → tblX tblPtr i < tblX tblPtr (i + 1)

/-! ## Sample inputs -/

/-- The table `[(0,0),(10,100)]` as stored: count, then `x_i`, `y_i` pairs. -/
def risingTable : List Int := [2, 0, 0, 10, 100]

/-- The table `[(-10,0),(10,100)]` as stored; its first `x` is negative. -/
def mixedSignTable : List Int := [2, -10, 0, 10, 100]

/-- The table `[(-10,0),(-5,100),(10,50),(20,200)]` as stored; its `x` values
change sign between the second and the third breakpoint. -/
def fourPointTable : List Int := [4, -10, 0, -5, 100, 10, 50, 20, 200]


/-- A sample font: glyphs 6 columns wide and 16 rows high (two row-bands of 6
bytes each), kerning 1, `CHAR_INDEX(c) = c - 32`, and glyph bytes
`CharMap[r][k] = 16 * (r mod 8) + k + 1`, so that the 12 bytes of one glyph
are pairwise different. -/
def sampleFont : Font where
  FONT_WIDTH := 6
  FONT_HEIGHT := 16
  FONT_KERN := 1
  CHAR_INDEX := fun c => (c - 32).toNat
  CharMap := fun r k => 16 * (r % 8) + k + 1

/-- A driver object at bus address `0x3C` with the cursor at the origin and the
column offset `DEFAULT_OFFSET`. -/
def sampleDriver : TinySH1106 := { wireAddr := 0x3C, xPos := 0, yPos := 0, offset := DEFAULT_OFFSET }

/-- A bus on which nothing has been sent and whose reads all return `0xA5`. -/
def idleWire : Wire := { sent := [], rx := fun _ => 0xA5, rd := 0 }

/-- The bitmap `[FONT_WIDTH, FONT_HEIGHT]` followed by the bytes of the glyph row
`CharMap[CHAR_INDEX(c)]` for the `unsigned char` `c`. -/
def glyphBitmap (f : Font) (c : Nat) (i : Nat) : Nat :=
  if i = 0 then f.FONT_WIDTH
  else if i = 1 then f.FONT_HEIGHT
  else f.CharMap (f.CHAR_INDEX ((c % 256 : Nat) : Int)) (i - 2)

/-- The byte array holding the bytes of `l`, read as zero past its end. -/
def byteArray (l : List Nat) (i : Nat) : Nat := l.getD i 0

/-! ## Theorems: LUT.cpp -/

/-- C1 fails on the code: on the table `[(0,0),(10,100)]` the query `-5`, which is
below `x_0 = 0`, yields `y_last = 100` and not `y_0 = 0`. The test
`lookup >= pgm_read_word(..)` compares `-5` as the unsigned value `65531`
with `10`. -/
theorem lookupTable_negative_query_not_lower_clamped :
    lookupTable [2, 0, 0, 10, 100] (-5) = some 100 := by
  decide

/-- C2 fails on the code: on the table `[(-10,0),(-5,100)]` the query `0`, which is
above `x_last = -5`, yields `y_0 = 0` and not `y_last = 100`. The stored `-5`
is read as the unsigned value `65531`, so the upper clamp test fails and the
lower clamp test `0 <= 65526` succeeds. -/
theorem lookupTable_negative_table_not_upper_clamped :
    lookupTable [2, -10, 0, -5, 100] 0 = some 0 := by
  decide

/-- C3 fails on the code: on the table `[(0,0),(1000,1000),(2000,2000)]` the query
`x_1 = 1000` goes through the interpolation branch of the segment
`(0,0)-(1000,1000)`, where the 16-bit product `1000 * 1000 mod 65536 = 16960`
divided by `1000` gives `16` and not `y_1 = 1000`. -/
theorem lookupTable_interior_breakpoint_not_exact :
    lookupTable [3, 0, 0, 1000, 1000, 2000, 2000] 1000 = some 16 := by
  decide

/-- C4 fails on the code: on the table `[(0,0),(1000,1000)]` the query `500` yields
`41`, from the 16-bit product `1000 * 500 mod 65536 = 41248` divided by
`1000`, and not `0 + trunc(1000 * 500 / 1000) = 500`; the small witnesses of
the claim, whose products stay below `65536`, do evaluate as stated. -/
theorem lookupTable_product_wraps :
    lookupTable [2, 0, 0, 1000, 1000] 500 = some 41 ∧
    lookupTable [2, 0, 0, 10, 100] 5 = some 50 ∧ lookupTable [2, 0, 0, 10, 100] 3 = some 30 ∧
    lookupTable [2, 0, 100, 10, 0] 5 = some 50 ∧ lookupTable [2, 0, 100, 10, 0] 2 = some 80 := by
  decide

/-- C5 fails on the code: the table `[(0,0),(1000,1000)]` has non-decreasing y, yet
the queries `65 < 66` yield `65` and `0` (the product `1000 * 66` wraps), and
on the table `[(0,0),(10,100)]` the queries `-5 < 0` yield `100` and `0`. -/
theorem lookupTable_not_monotone :
    lookupTable [2, 0, 0, 1000, 1000] 65 = some 65 ∧
    lookupTable [2, 0, 0, 1000, 1000] 66 = some 0 ∧
    lookupTable [2, 0, 0, 10, 100] (-5) = some 100 ∧
    lookupTable [2, 0, 0, 10, 100] 0 = some 0 := by
  decide

/-! ## Theorems: the page register -/

set_option maxRecDepth 100000 in
theorem drawBitmapReg_fields : ∀ y < 256,
    GET_PAGE_OFFSET (drawBitmapReg y) = y % 8 ∧
    GET_PAGE_START (drawBitmapReg y) = (y / 8) % 8 ∧
    (GET_PAGE_SPLIT (drawBitmapReg y) = 0 ↔ y % 8 = 0) ∧
    GET_PAGE_OFFSET (SET_PAGE_START (SET_PAGE_OFFSET 0 y) y) = y % 8 := by
  decide

set_option maxRecDepth 100000 in
theorem drawBitmapReg_lt : ∀ y < 256, drawBitmapReg y < 256 := by
  decide

theorem pagesNeeded_eq (h y : Nat) (hh : h < 256) (hy : y < 256) :
    pagesNeeded h y = if y % 8 = 0 then (h - 1) / 8 + 1 else (h - 1) / 8 + 2 := by
  unfold pagesNeeded
  simp only [(drawBitmapReg_fields y hy).2.2.2]
  split <;> omega

theorem pagesNeeded_pos (h y : Nat) (hh : h < 256) (hy : y < 256) : 1 ≤ pagesNeeded h y := by
  rw [pagesNeeded_eq h y hh hy]
  split <;> omega

/-! ## Theorems: bus traces -/

theorem foldl_sent {α : Type} (f : Wire → α → Wire) (g : α → List BusOp)
    (h : ∀ w a, (f w a).sent = w.sent ++ g a) :
    ∀ (l : List α) (w : Wire), (l.foldl f w).sent = w.sent ++ l.flatMap g := by
  intro l
  induction l with
  | nil => intro w; simp
  | cons a l ih =>
    intro w
    simp [List.foldl_cons, ih, h, List.flatMap_cons, List.append_assoc]

namespace TinySH1106

theorem sendCommand_sent (self : TinySH1106) (com : Nat) (w : Wire) :
    (self.sendCommand com w).sent = w.sent ++ [commandOp self com] := rfl

theorem sendData_sent (self : TinySH1106) (com : Nat) (w : Wire) :
    (self.sendData com w).sent = w.sent ++ [dataOp self com] := rfl

theorem readData_sent (self : TinySH1106) (w : Wire) :
    (self.readData w).2.sent = w.sent ++ [BusOp.requestFrom self.wireAddr 2] := rfl

theorem setPage_sent (self : TinySH1106) (p : Nat) (w : Wire) :
    (self.setPage p w).sent = w.sent ++ [commandOp self (SET_PAGE ||| (p &&& 0x07))] := rfl

theorem setCol_sent (self : TinySH1106) (c : Nat) (w : Wire) :
    (self.setCol c w).sent = w.sent ++ [setColOp self c] := rfl

theorem drawBitmapCol_sent (self : TinySH1106) (s : Nat → Nat) (reg pn p : Nat) (w : Wire)
    (col : Nat) :
    (drawBitmapCol self s reg pn p w col).sent =
      w.sent ++ [BusOp.requestFrom self.wireAddr 2, dataOp self (drawBitmapByte s reg pn p col 0)] := by
  unfold drawBitmapCol
  rw [sendData_sent, readData_sent]
  simp [drawBitmapByte]

theorem drawBitmapPage_sent (self : TinySH1106) (s : Nat → Nat) (x reg pn : Nat) (w : Wire)
    (p : Nat) :
    (drawBitmapPage self s x reg pn w p).sent = w.sent ++ drawBitmapPageOps self s x reg pn p := by
  unfold drawBitmapPage drawBitmapPageOps
  simp only [sendCommand_sent]
  rw [foldl_sent _ _ (drawBitmapCol_sent self s reg pn p)]
  simp [sendCommand_sent, setCol_sent, setPage_sent, List.append_assoc]

theorem drawBitmap_sent (self : TinySH1106) (s : Nat → Nat) (x y : Nat) (w : Wire) :
    (self.drawBitmap s x y w).sent = w.sent ++ drawBitmapOps self s x y := by
  unfold drawBitmap drawBitmapOps
  exact foldl_sent _ _ (drawBitmapPage_sent self s (x % 256) _ _) _ w

end TinySH1106

theorem dataBytes_append (a b : List BusOp) : dataBytes (a ++ b) = dataBytes a ++ dataBytes b := by
  simp [dataBytes, List.filterMap_append]

theorem dataBytes_columns (self : TinySH1106) (b : Nat → Nat) (l : List Nat) :
    dataBytes (l.flatMap (fun col => [BusOp.requestFrom self.wireAddr 2, dataOp self (b col)]))
      = l.map (fun col => b col % 256) := by
  induction l with
  | nil => simp [dataBytes]
  | cons a l ih =>
    rw [List.flatMap_cons, dataBytes_append, ih]
    simp [dataBytes, dataOp]

theorem dataBytes_drawBitmapPageOps (self : TinySH1106) (s : Nat → Nat) (x reg pn p : Nat) :
    dataBytes (drawBitmapPageOps self s x reg pn p) =
      (List.range (pgm_read_byte s 0)).map
        (fun col => TinySH1106.drawBitmapByte s reg pn p col 0 % 256) := by
  unfold drawBitmapPageOps
  rw [dataBytes_append, dataBytes_append, dataBytes_columns]
  simp [dataBytes, commandOp, setColOp, SINGLE_COMMAND, SINGLE_DATA, MULTI_COMMAND]

/-! ## Theorems: page-span descriptor and first-page compositing -/

/-- C6: for every content height `h` in `1..255` and every `y` in `[0,64)`, the
register built by the prologue of `drawBitmap` and `drawChar` reads back
`startPage = y/8` and `bitOffset = y mod 8`; when the offset is zero
`pagesNeeded = (h-1)/8 + 1` and the split flag is clear, otherwise
`pagesNeeded = (h-1)/8 + 2` and the split flag is set. All three fields are
read from the one final register value, which fits in a byte. -/
theorem page_span_derivation (h y : Nat) (hh1 : 1 ≤ h) (hh2 : h ≤ 255) (hy : y < 64) :
    drawBitmapReg y < 256 ∧
    GET_PAGE_START (drawBitmapReg y) = y / 8 ∧
    GET_PAGE_OFFSET (drawBitmapReg y) = y % 8 ∧
    (y % 8 = 0 → pagesNeeded h y = (h - 1) / 8 + 1 ∧ GET_PAGE_SPLIT (drawBitmapReg y) = 0) ∧
    (y % 8 ≠ 0 → pagesNeeded h y = (h - 1) / 8 + 2 ∧ GET_PAGE_SPLIT (drawBitmapReg y) ≠ 0) := by
  have hy' : y < 256 := by omega
  obtain ⟨hoff, hstart, hsplit, -⟩ := drawBitmapReg_fields y hy'
  have hpn := pagesNeeded_eq h y (by omega) hy'
  refine ⟨drawBitmapReg_lt y hy', ?_, hoff, ?_, ?_⟩
  · rw [hstart]; omega
  · intro h0
    exact ⟨by rw [hpn, if_pos h0], hsplit.mpr h0⟩
  · intro h0
    exact ⟨by rw [hpn, if_neg h0], fun hs => h0 (hsplit.mp hs)⟩

/-- Instance of C6 at height `10` and `y = 12` (offset `4`): three pages, split. -/
theorem page_span_derivation_witness :
    (1 ≤ 10 ∧ 10 ≤ 255 ∧ 12 < 64) ∧
    GET_PAGE_START (drawBitmapReg 12) = 1 ∧ GET_PAGE_OFFSET (drawBitmapReg 12) = 4 ∧
    pagesNeeded 10 12 = 3 ∧ GET_PAGE_SPLIT (drawBitmapReg 12) ≠ 0 :=
  have key := page_span_derivation 10 12 (by decide) (by decide) (by decide)
  ⟨by decide, key.2.1, key.2.2.1, (key.2.2.2.2 (by decide)).1, (key.2.2.2.2 (by decide)).2⟩

/-- C7: for every bitmap `s`, every column `col` below the width `s[0]`, every
`y` (bit offset `y mod 8`) and every bus state, in particular every stream of
values returned by the reads, the `col`-th data byte that `drawBitmap` sends,
which is the byte of column `col` on the first page, is
`(s[2+col] << (y mod 8)) & 0xFF`. -/
theorem drawBitmap_first_page_byte (self : TinySH1106) (s : Nat → Nat) (x y : Nat) (w : Wire)
    (col : Nat) (hy : y < 256) (hcol : col < pgm_read_byte s 0) :
    (dataBytes ((self.drawBitmap s x y w).sent.drop w.sent.length))[col]? =
      some ((pgm_read_byte s (2 + col) <<< (y % 8)) &&& 0xFF) := by
  rw [TinySH1106.drawBitmap_sent, List.drop_left]
  have hy' : y % 256 = y := Nat.mod_eq_of_lt hy
  have hpos := pagesNeeded_pos (pgm_read_byte s 1) y (Nat.mod_lt _ (by decide)) hy
  obtain ⟨k, hk⟩ : ∃ k, pagesNeeded (pgm_read_byte s 1) y = k + 1 := ⟨_, (Nat.sub_add_cancel hpos).symm⟩
  unfold drawBitmapOps
  rw [hy', hk, List.range'_succ, List.flatMap_cons, dataBytes_append,
    dataBytes_drawBitmapPageOps]
  rw [List.getElem?_append_left (by simpa using hcol)]
  rw [List.getElem?_map, List.getElem?_range hcol]
  simp only [Option.map_some', TinySH1106.drawBitmapByte, if_true,
    (drawBitmapReg_fields y hy).1]
  rw [Nat.add_comm col 2, Nat.mod_mod]
  exact congrArg some (Nat.and_pow_two_sub_one_eq_mod _ 8).symm

/-- Instance of C7: a one-column bitmap of height `8` holding the byte `0x81`,
drawn at `y = 3` on a bus whose reads return `0xA5`: the first-page byte is
`(0x81 << 3) & 0xFF = 0x08`. -/
theorem drawBitmap_first_page_byte_witness :
    (dataBytes ((sampleDriver.drawBitmap (byteArray [1, 8, 0x81]) 0 3 idleWire).sent.drop
        idleWire.sent.length))[0]? = some ((pgm_read_byte (byteArray [1, 8, 0x81]) (2 + 0) <<< (3 % 8)) &&& 0xFF) :=
  drawBitmap_first_page_byte sampleDriver (byteArray [1, 8, 0x81]) 0 3 idleWire 0 (by decide) (by decide)

/-! ## Theorems: print -/

namespace TinySH1106

theorem PlotChar_xPos (self : TinySH1106) (v : Nat) (f : Font) (c x y : Nat) (w : Wire) :
    PlotChar { self with xPos := v } f c x y w = PlotChar self f c x y w := rfl

theorem printLoop_eq (f : Font) (c : Nat → Nat) :
    ∀ (n k i : Nat) (self : TinySH1106) (w : Wire), k ≤ n →
      (∀ j < k, c (i + j) % 256 ≠ 0) → (k = n ∨ c (i + k) % 256 = 0) → self.xPos < 256 →
      printLoop f c n i self w =
        ({ self with xPos := (self.xPos + k * (f.FONT_WIDTH + f.FONT_KERN)) % 256 },
         (List.range k).foldl
           (fun w j => self.PlotChar f (c (i + j) % 256)
             ((self.xPos + j * (f.FONT_WIDTH + f.FONT_KERN)) % 256) self.yPos w) w) := by
  intro n
  induction n with
  | zero =>
    intro k i self w hk _ _ hx
    obtain rfl : k = 0 := by omega
    cases self
    simp [printLoop, Nat.mod_eq_of_lt (show _ < 256 from hx)]
  | succ n ih =>
    intro k i self w hk hnz hend hx
    cases k with
    | zero =>
      have h0 : c i % 256 = 0 := by
        rcases hend with h | h
        · omega
        · simpa using h
      cases self
      simp [printLoop, h0, Nat.mod_eq_of_lt (show _ < 256 from hx)]
    | succ k =>
      have h0 : c i % 256 ≠ 0 := by simpa using hnz 0 (by omega)
      rw [printLoop, if_neg h0]
      simp only []
      rw [ih k (i + 1) _ _ (by omega)
        (fun j hj => by have := hnz (j + 1) (by omega); rwa [← Nat.add_assoc, Nat.add_right_comm] at this)
        (by rcases hend with h | h
            · left; omega
            · right; rwa [← Nat.add_assoc, Nat.add_right_comm] at h)
        (Nat.mod_lt _ (by decide))]
      have hstep : ∀ j, ((self.xPos + f.FONT_WIDTH + f.FONT_KERN) % 256
            + j * (f.FONT_WIDTH + f.FONT_KERN)) % 256
          = (self.xPos + (j + 1) * (f.FONT_WIDTH + f.FONT_KERN)) % 256 := by
        intro j
        rw [Nat.succ_mul]
        omega
      refine Prod.ext ?_ ?_
      · simp only [hstep]
      · simp only [List.range_succ_eq_map, List.foldl_cons, List.foldl_map, hstep, PlotChar_xPos,
          Nat.zero_mul, Nat.add_zero, Nat.mod_eq_of_lt hx]
        simp only [Nat.add_assoc, Nat.add_comm 1]

end TinySH1106

/-- C9 as stated fails: with the cursor at `(0, 8)` the one-character string "A"
printed by `print` does not give the bus operations of `drawChar('A', 0, 8)`;
`print` selects pages `(8+0) & 7 = 0` and `1` and sends the glyph bytes
unshifted, `drawChar` starts at page `8/8 = 1`. -/
theorem print_ne_drawChar :
    ((sampleDriver.setCursor 0 8).print sampleFont (byteArray [65]) idleWire).2.sent ≠
      ((sampleDriver.setCursor 0 8).drawChar sampleFont 65 (sampleDriver.setCursor 0 8).xPos
        (sampleDriver.setCursor 0 8).yPos idleWire).sent := by
  decide

/-- C10: for a character array whose first `n` bytes are nonzero, with `n = 132`
or a zero byte at index `n` (so `n` is the smaller of `132` and the index of
the first zero byte), `print` draws the `n` characters `c[0], .., c[n-1]` in
order, each through `PlotChar` at the cursor advanced so far; afterwards the
cursor x is the initial x plus `n * (FONT_WIDTH + FONT_KERN)` reduced to
8 bits, and the cursor y, the column offset and the bus address are
unchanged. -/
theorem print_cursor_advance (self : TinySH1106) (f : Font) (c : Nat → Nat) (w : Wire)
    (n : Nat) (hn : n ≤ 132) (hnz : ∀ j < n, c j % 256 ≠ 0) (hend : n = 132 ∨ c n % 256 = 0)
    (hx : self.xPos < 256) :
    (self.print f c w).2 =
      ((List.range n).map
          (fun j => (c j % 256, (self.xPos + j * (f.FONT_WIDTH + f.FONT_KERN)) % 256))).foldl
        (fun w cx => self.PlotChar f cx.1 cx.2 self.yPos w) w ∧
    (self.print f c w).1.xPos = (self.xPos + n * (f.FONT_WIDTH + f.FONT_KERN)) % 256 ∧
    (self.print f c w).1.yPos = self.yPos ∧
    (self.print f c w).1.offset = self.offset ∧
    (self.print f c w).1.wireAddr = self.wireAddr := by
  have key := TinySH1106.printLoop_eq f c 132 n 0 self w hn
    (fun j hj => by simpa using hnz j hj) (by simpa using hend) hx
  unfold TinySH1106.print
  rw [key]
  simp [List.foldl_map]

/-- Instance of C10: the string "Hi" printed by the sample driver with the sample
font (glyph width 6, kerning 1) leaves the cursor x at `14`. -/
theorem print_cursor_advance_witness :
    (sampleDriver.print sampleFont (byteArray [72, 105]) idleWire).1.xPos =
        (sampleDriver.xPos + 2 * (sampleFont.FONT_WIDTH + sampleFont.FONT_KERN)) % 256 ∧
    (sampleDriver.print sampleFont (byteArray [72, 105]) idleWire).1.yPos = sampleDriver.yPos :=
  have key := print_cursor_advance sampleDriver sampleFont (byteArray [72, 105]) idleWire 2
    (by decide) (by decide) (by decide) (by decide)
  ⟨key.2.1, key.2.2.1⟩

/-! ## Theorems: drawChar against drawBitmap -/

/-- C8 fails on the code: for the sample font (glyphs 6 wide, 16 high) the bus
operations of `drawChar('A', 0, 0)` differ from those of `drawBitmap` on the
bitmap `[FONT_WIDTH, FONT_HEIGHT]` followed by the glyph bytes of 'A'. The
data byte of column `0` on the second page (data byte number `6`) is glyph
byte `6` (value `23`) in `drawBitmap`, while `drawChar` indexes the glyph with
the bitmap's header skip `(col+2)` and sends glyph byte `8` (value `25`). -/
theorem drawChar_ne_drawBitmap_of_glyph :
    (sampleDriver.drawChar sampleFont 65 0 0 idleWire).sent ≠
      (sampleDriver.drawBitmap (glyphBitmap sampleFont 65) 0 0 idleWire).sent ∧
    (dataBytes (sampleDriver.drawBitmap (glyphBitmap sampleFont 65) 0 0 idleWire).sent)[6]? =
      some (sampleFont.CharMap (sampleFont.CHAR_INDEX 65) 6) ∧
    (dataBytes (sampleDriver.drawChar sampleFont 65 0 0 idleWire).sent)[6]? =
      some (sampleFont.CharMap (sampleFont.CHAR_INDEX 65) 8) ∧
    sampleFont.CharMap (sampleFont.CHAR_INDEX 65) 6 = 23 ∧
    sampleFont.CharMap (sampleFont.CHAR_INDEX 65) 8 = 25 := by
  decide

/-! ## Theorems: initialisation and clear -/

namespace TinySH1106

theorem clearPage_sent (self : TinySH1106) (w : Wire) (page : Nat) :
    (clearPage self w page).sent = w.sent ++ clearPageOps self page := by
  unfold clearPage clearPageOps
  rw [foldl_sent (clearBurst self)
    (fun _ => [BusOp.transmission self.wireAddr [MULTI_DATA, 0, 0, 0, 0, 0, 0, 0, 0]])
    (fun w _ => rfl)]
  simp [sendCommand_sent, List.append_assoc]
  rfl

theorem clear_sent (self : TinySH1106) (w : Wire) :
    (self.clear w).sent = w.sent ++ clearOps self := by
  unfold clear clearOps
  exact foldl_sent _ _ (clearPage_sent self) _ w

end TinySH1106

/-- C11, as amended: from every driver state and bus state, `begin()` sends, in
this order, power-off (`0xAE`), segment remap (`0xA1`), scan direction
(`0xC8`), power-on (`0xAF`), mux ratio (`0xA8` with `0x3F`) and contrast
(`0x81` with `0xCF`), directly followed by the operations of `clear()` over
the pages `0 .. 7`; nothing is sent for the offset, `setOffset(DEFAULT_OFFSET)`
only stores `4` in the data member `offset`. -/
theorem begin_trace (self : TinySH1106) (w : Wire) :
    (self.begin w).2.sent =
      w.sent ++
        [BusOp.transmission self.wireAddr [0x80, 0xAE],
         BusOp.transmission self.wireAddr [0x80, 0xA1],
         BusOp.transmission self.wireAddr [0x80, 0xC8],
         BusOp.transmission self.wireAddr [0x80, 0xAF],
         BusOp.transmission self.wireAddr [0x00, 0xA8, 0x3F],
         BusOp.transmission self.wireAddr [0x80, 0x81, 0xCF]] ++
        (List.range 8).flatMap (clearPageOps self) ∧
    (∀ w1 : Wire, (self.clear w1).sent = w1.sent ++ (List.range 8).flatMap (clearPageOps self)) ∧
    (self.begin w).1 = { self with offset := 4 } := by
  refine ⟨?_, fun w1 => TinySH1106.clear_sent self w1, rfl⟩
  have hinit : (self.initDisplay w).2.sent =
      w.sent ++
        [BusOp.transmission self.wireAddr [0x80, 0xAE],
         BusOp.transmission self.wireAddr [0x80, 0xA1],
         BusOp.transmission self.wireAddr [0x80, 0xC8],
         BusOp.transmission self.wireAddr [0x80, 0xAF],
         BusOp.transmission self.wireAddr [0x00, 0xA8, 0x3F],
         BusOp.transmission self.wireAddr [0x80, 0x81, 0xCF]] := by
    simp only [TinySH1106.initDisplay, TinySH1106.sendCommand, TinySH1106.setMuxRatio,
      TinySH1106.setContrast, List.append_assoc, List.singleton_append]
    rfl
  have hclear : clearOps (self.initDisplay w).1 = (List.range 8).flatMap (clearPageOps self) := rfl
  unfold TinySH1106.begin
  rw [TinySH1106.clear_sent, hinit, hclear]

set_option maxRecDepth 100000 in
/-- C11 as stated fails: in the bus trace of `begin()` on the sample driver no
transmitted byte is the display-offset command `0xD3`, and the operation that
follows the contrast command is already the page select of `clear()`. -/
theorem begin_sends_no_display_offset :
    DISPLAY_OFFSET ∉ transmittedBytes (sampleDriver.begin idleWire).2.sent ∧
    (sampleDriver.begin idleWire).2.sent[5]? = some (BusOp.transmission 0x3C [0x80, 0x81, 0xCF]) ∧
    (sampleDriver.begin idleWire).2.sent[6]? = some (BusOp.transmission 0x3C [0x80, 0xB0]) := by
  decide

set_option maxRecDepth 100000 in
/-- C12 fails on the code: from every state `clear()` sends, for each page
`0 .. 7`, the page select, the column commands `SET_COL_LO | 2` and
`SET_COL_HI | 0` (column address `2`) and sixteen bursts of eight zero bytes,
so that the zeroed run of a page is `[2, 2 + 128)`; the logical column
`x = 126` with the offset `DEFAULT_OFFSET` is the hardware column `130`,
which is not below `2 + 128`. -/
theorem clear_misses_column_130 :
    (∀ (self : TinySH1106) (w : Wire),
      (self.clear w).sent = w.sent ++ (List.range 8).flatMap (clearPageOps self)) ∧
    (∀ page < 8, multiDataBytes (clearPageOps sampleDriver page) = List.replicate 128 0) ∧
    columnAddress (SET_COL_LO ||| 2) (SET_COL_HI ||| 0) = 2 ∧
    (sampleDriver.begin idleWire).1.offset = DEFAULT_OFFSET ∧
    ¬ (126 + (sampleDriver.begin idleWire).1.offset <
        columnAddress (SET_COL_LO ||| 2) (SET_COL_HI ||| 0)
          + (multiDataBytes (clearPageOps sampleDriver 0)).length) := by
  refine ⟨fun self w => TinySH1106.clear_sent self w, ?_, ?_, ?_, ?_⟩ <;> decide

/-- C13 fails on the code: with the column offset `4`, `setCol(124)` (column
`128`) transmits `0x00, 0x00, 0xF8`; the third byte is not
`SET_COL_HI | (128 >> 4) = 0x18`, because `c` is a signed `char` and
`c >> 4` is `-8`. For the logical columns below `124` the three bytes are
`0x00`, `col & 0x0F` and `0x10 | (col >> 4)`, and for `124 .. 127` the third
byte is `0xF8`. -/
theorem setCol_high_nibble_sign_extended :
    (sampleDriver.setCol 124 idleWire).sent = [BusOp.transmission 0x3C [0x00, 0x00, 0xF8]] ∧
    (∀ x < 124, (sampleDriver.setCol x idleWire).sent =
      [BusOp.transmission 0x3C
        [MULTI_COMMAND, SET_COL_LO ||| ((x + 4) &&& 0x0F), SET_COL_HI ||| ((x + 4) >>> 4)]]) ∧
    (∀ x < 128, 124 ≤ x → (sampleDriver.setCol x idleWire).sent =
      [BusOp.transmission 0x3C [MULTI_COMMAND, SET_COL_LO ||| ((x + 4) &&& 0x0F), 0xF8]]) := by
  decide

/-! ## Theorems: drawBitmap, reads and pages -/

/-- C16: for every bitmap and position and for any two streams of values
returned by the bus reads (and any read positions), started from the same
sent history, the operations that `drawBitmap` has sent afterwards are the
same: no command or data byte depends on what the reads return. -/
theorem drawBitmap_read_independent (self : TinySH1106) (s : Nat → Nat) (x y : Nat)
    (sent : List BusOp) (rx rx' : Nat → Nat) (rd rd' : Nat) :
    (self.drawBitmap s x y { sent := sent, rx := rx, rd := rd }).sent =
      (self.drawBitmap s x y { sent := sent, rx := rx', rd := rd' }).sent := by
  rw [TinySH1106.drawBitmap_sent, TinySH1106.drawBitmap_sent]

theorem page_select_byte : ∀ v < 8,
    ((SET_PAGE ||| v) % 256) &&& 0xF8 = SET_PAGE ∧ ((SET_PAGE ||| v) % 256) &&& 0x07 = v := by
  decide

theorem selectedPages_columns (self : TinySH1106) (b : Nat → Nat) (l : List Nat) :
    selectedPages (l.flatMap (fun col => [BusOp.requestFrom self.wireAddr 2, dataOp self (b col)]))
      = [] := by
  unfold selectedPages
  rw [List.filterMap_flatMap]
  simp [dataOp, SINGLE_DATA, SINGLE_COMMAND]

theorem selectedPages_drawBitmapPageOps (self : TinySH1106) (s : Nat → Nat) (x reg pn p : Nat) :
    selectedPages (drawBitmapPageOps self s x reg pn p) = [p % 8] := by
  have h7 : p &&& 0x07 = p % 8 := Nat.and_pow_two_sub_one_eq_mod p 3
  obtain ⟨h1, h2⟩ := page_select_byte (p % 8) (Nat.mod_lt _ (by decide))
  unfold drawBitmapPageOps
  have hcols := selectedPages_columns self (TinySH1106.drawBitmapByte s reg pn p · 0)
    (List.range (pgm_read_byte s 0))
  unfold selectedPages at hcols ⊢
  rw [List.filterMap_append, List.filterMap_append, hcols]
  simp only [SET_PAGE] at h1 h2
  simp [List.filterMap_cons, commandOp, setColOp, h7, h1, h2, RMW, RMW_END, SINGLE_COMMAND,
    MULTI_COMMAND, SET_PAGE]
  decide

theorem selectedPages_drawBitmapOps (self : TinySH1106) (s : Nat → Nat) (x y : Nat) :
    selectedPages (drawBitmapOps self s x y) =
      (List.range (pagesNeeded (pgm_read_byte s 1) (y % 256))).map
        (fun r => (GET_PAGE_START (drawBitmapReg (y % 256)) + r) % 8) := by
  unfold drawBitmapOps
  have hflat : ∀ (l : List Nat) (f : Nat → List BusOp),
      selectedPages (l.flatMap f) = l.flatMap (fun a => selectedPages (f a)) := by
    intro l f
    unfold selectedPages
    rw [List.filterMap_flatMap]
  rw [hflat]
  simp only [selectedPages_drawBitmapPageOps]
  rw [List.range'_eq_map_range, List.flatMap_map]
  induction (List.range (pagesNeeded (pgm_read_byte s 1) (y % 256))) with
  | nil => rfl
  | cons a l ih => simp [List.flatMap_cons, ih]

/-- C15, as amended: for every bitmap of height `h` in `1..255` and every `y` with
`y + h ≤ 64`, the pages that `drawBitmap` selects are, in order, `(y/8 + r) mod 8`
for `r` below `pagesNeeded`, where `pagesNeeded` is `(h-1)/8 + 1` when
`y mod 8 = 0` and `(h-1)/8 + 2` otherwise. This is the minimal count
`(y+h-1)/8 - y/8 + 1` when `y mod 8 = 0` or `y mod 8 + (h-1) mod 8 ≥ 8`, and
one more otherwise: besides the pages `y/8 .. (y+h-1)/8` of the content at most
the one page after them, with its index reduced to 3 bits, is selected. -/
theorem drawBitmap_selected_pages (self : TinySH1106) (s : Nat → Nat) (x y : Nat) (w : Wire)
    (hh : 1 ≤ pgm_read_byte s 1) (hfit : y + pgm_read_byte s 1 ≤ 64) :
    selectedPages ((self.drawBitmap s x y w).sent.drop w.sent.length) =
      (List.range (pagesNeeded (pgm_read_byte s 1) y)).map (fun r => (y / 8 + r) % 8) ∧
    pagesNeeded (pgm_read_byte s 1) y =
      ((y + pgm_read_byte s 1 - 1) / 8 - y / 8 + 1) +
        (if y % 8 ≠ 0 ∧ y % 8 + (pgm_read_byte s 1 - 1) % 8 < 8 then 1 else 0) ∧
    (∀ q ∈ selectedPages ((self.drawBitmap s x y w).sent.drop w.sent.length),
      (y / 8 ≤ q ∧ q ≤ (y + pgm_read_byte s 1 - 1) / 8) ∨
        q = ((y + pgm_read_byte s 1 - 1) / 8 + 1) % 8) := by
  have hy : y < 256 := by omega
  have hy' : y % 256 = y := Nat.mod_eq_of_lt hy
  have hstart : GET_PAGE_START (drawBitmapReg y) = y / 8 := by
    rw [(drawBitmapReg_fields y hy).2.1]; omega
  have hsel : selectedPages ((self.drawBitmap s x y w).sent.drop w.sent.length) =
      (List.range (pagesNeeded (pgm_read_byte s 1) y)).map (fun r => (y / 8 + r) % 8) := by
    rw [TinySH1106.drawBitmap_sent, List.drop_left, selectedPages_drawBitmapOps, hy', hstart]
  have hpn := pagesNeeded_eq (pgm_read_byte s 1) y (Nat.mod_lt _ (by decide)) hy
  have hcount : pagesNeeded (pgm_read_byte s 1) y =
      ((y + pgm_read_byte s 1 - 1) / 8 - y / 8 + 1) +
        (if y % 8 ≠ 0 ∧ y % 8 + (pgm_read_byte s 1 - 1) % 8 < 8 then 1 else 0) := by
    rw [hpn]
    split <;> split <;> omega
  refine ⟨hsel, hcount, ?_⟩
  intro q hq
  rw [hsel, List.mem_map] at hq
  obtain ⟨r, hr, rfl⟩ := hq
  rw [List.mem_range, hcount] at hr
  split at hr <;> omega

/-- Instance of the amended C15: a one-column bitmap of height `7` drawn at
`y = 57` (rows `57 .. 63`): two pages are selected, page `7` and then page
`(7 + 1) mod 8 = 0`. -/
theorem drawBitmap_selected_pages_witness :
    selectedPages ((sampleDriver.drawBitmap (byteArray [1, 7, 0x7F]) 0 57 idleWire).sent.drop
        idleWire.sent.length) =
      (List.range (pagesNeeded (pgm_read_byte (byteArray [1, 7, 0x7F]) 1) 57)).map
        (fun r => (57 / 8 + r) % 8) :=
  (drawBitmap_selected_pages sampleDriver (byteArray [1, 7, 0x7F]) 0 57 idleWire
    (by decide) (by decide)).1

/-- C15 as stated fails: a one-column bitmap of height `7` drawn at `y = 57` lies
entirely on the panel (`57 + 7 ≤ 64`) and meets only page `7`, yet `drawBitmap`
selects the pages `7` and `0`; and a bitmap of height `1` drawn at `y = 3`
meets only page `0`, yet the pages `0` and `1` are selected. -/
theorem drawBitmap_selects_extra_page :
    selectedPages (sampleDriver.drawBitmap (byteArray [1, 7, 0x7F]) 0 57 idleWire).sent = [7, 0] ∧
    57 + 7 ≤ 64 ∧ 57 / 8 = 7 ∧ (57 + 7 - 1) / 8 = 7 ∧
    selectedPages (sampleDriver.drawBitmap (byteArray [1, 1, 0x01]) 0 3 idleWire).sent = [0, 1] ∧
    3 / 8 = 0 ∧ (3 + 1 - 1) / 8 = 0 := by
  decide

/-! ## Theorems: the bytes written by drawBitmap -/

theorem getElem?_flatMap_uniform {α β : Type} (f : β → List α) (n : Nat)
    (hlen : ∀ a, (f a).length = n) :
    ∀ (l : List β) (r c : Nat), c < n →
      (l.flatMap f)[r * n + c]? = (l[r]?).bind (fun a => (f a)[c]?) := by
  intro l
  induction l with
  | nil => intro r c _; simp
  | cons a l ih =>
    intro r c hc
    rw [List.flatMap_cons]
    cases r with
    | zero =>
      rw [List.getElem?_append_left (by rw [hlen]; omega)]
      simp
    | succ r =>
      rw [List.getElem?_append_right (by rw [hlen, Nat.succ_mul]; omega), hlen]
      have hidx : (r + 1) * n + c - n = r * n + c := by rw [Nat.succ_mul]; omega
      rw [hidx, ih r c hc]
      simp

theorem dataBytes_drawBitmapOps (self : TinySH1106) (s : Nat → Nat) (x y : Nat) :
    dataBytes (drawBitmapOps self s x y) =
      (List.range' (GET_PAGE_START (drawBitmapReg (y % 256)))
          (pagesNeeded (pgm_read_byte s 1) (y % 256))).flatMap
        (fun p => (List.range (pgm_read_byte s 0)).map
          (fun col => TinySH1106.drawBitmapByte s (drawBitmapReg (y % 256))
            (pagesNeeded (pgm_read_byte s 1) (y % 256)) p col 0 % 256)) := by
  unfold drawBitmapOps
  have hflat : ∀ (l : List Nat) (f : Nat → List BusOp),
      dataBytes (l.flatMap f) = l.flatMap (fun a => dataBytes (f a)) := by
    intro l f
    unfold dataBytes
    rw [List.filterMap_flatMap]
  rw [hflat]
  simp only [dataBytes_drawBitmapPageOps]

/-- The data byte that `drawBitmap` sends for relative page `r` and column `c`. -/
theorem drawBitmap_data_byte (self : TinySH1106) (s : Nat → Nat) (x y : Nat) (w : Wire)
    (r c : Nat) (hy : y < 256) (hr : r < pagesNeeded (pgm_read_byte s 1) y)
    (hc : c < pgm_read_byte s 0) :
    (dataBytes ((self.drawBitmap s x y w).sent.drop w.sent.length))[r * pgm_read_byte s 0 + c]? =
      some (TinySH1106.drawBitmapByte s (drawBitmapReg y) (pagesNeeded (pgm_read_byte s 1) y)
        (GET_PAGE_START (drawBitmapReg y) + r) c 0 % 256) := by
  rw [TinySH1106.drawBitmap_sent, List.drop_left, dataBytes_drawBitmapOps,
    Nat.mod_eq_of_lt hy]
  rw [getElem?_flatMap_uniform _ (pgm_read_byte s 0) (fun a => by simp) _ r c hc]
  rw [List.range'_eq_map_range, List.getElem?_map, List.getElem?_range hr]
  simp [List.getElem?_range hc]

theorem testBit_byte_high (B j : Nat) (hB : B < 256) (hj : 8 ≤ j) : B.testBit j = false := by
  apply Nat.testBit_lt_two_pow
  calc B < 2 ^ 8 := hB
    _ ≤ 2 ^ j := Nat.pow_le_pow_right (by decide) hj

theorem testBit_shl_byte (B o b : Nat) (hb : b < 8) :
    ((B <<< o) % 256).testBit b = (decide (o ≤ b) && B.testBit (b - o)) := by
  have h256 : (256 : Nat) = 2 ^ 8 := rfl
  rw [h256, Nat.testBit_mod_two_pow, Nat.testBit_shiftLeft]
  simp [hb]

theorem testBit_shr_byte (B o b : Nat) (hB : B < 256) (ho : o ≤ 8) (hb : b < 8) :
    ((B >>> (8 - o)) % 256).testBit b = (decide (b < o) && B.testBit (8 + b - o)) := by
  have h256 : (256 : Nat) = 2 ^ 8 := rfl
  rw [h256, Nat.testBit_mod_two_pow, Nat.testBit_shiftRight]
  by_cases hbo : b < o
  · have : 8 - o + b = 8 + b - o := by omega
    simp [hb, hbo, this]
  · have : B.testBit (8 - o + b) = false := testBit_byte_high B _ hB (by omega)
    simp [hbo, this]

theorem testBit_mod256 (v b : Nat) (hb : b < 8) : (v % 256).testBit b = v.testBit b := by
  have h256 : (256 : Nat) = 2 ^ 8 := rfl
  rw [h256, Nat.testBit_mod_two_pow]
  simp [hb]

theorem drawBitmapByte_testBit (s : Nat → Nat) (y r c b : Nat) (hy : y < 256)
    (hh : 1 ≤ pgm_read_byte s 1) (hr : r < pagesNeeded (pgm_read_byte s 1) y) (hb : b < 8) :
    (TinySH1106.drawBitmapByte s (drawBitmapReg y) (pagesNeeded (pgm_read_byte s 1) y)
        (GET_PAGE_START (drawBitmapReg y) + r) c 0 % 256).testBit b =
      if y % 8 ≤ 8 * r + b ∧ 8 * r + b - y % 8 < 8 * ((pgm_read_byte s 1 - 1) / 8 + 1) then
        (pgm_read_byte s (2 + c + ((8 * r + b - y % 8) / 8) * pgm_read_byte s 0)).testBit
          ((8 * r + b - y % 8) % 8)
      else false := by
  obtain ⟨hoff, -, hsplit, -⟩ := drawBitmapReg_fields y hy
  have hpn := pagesNeeded_eq (pgm_read_byte s 1) y (Nat.mod_lt _ (by decide)) hy
  have ho : y % 8 < 8 := Nat.mod_lt _ (by decide)
  have hB : ∀ i, pgm_read_byte s i < 256 := fun i => Nat.mod_lt _ (by decide)
  have hH : pgm_read_byte s 1 < 256 := hB 1
  unfold TinySH1106.drawBitmapByte
  simp only [hoff]
  generalize GET_PAGE_START (drawBitmapReg y) = st
  generalize hpnv : pagesNeeded (pgm_read_byte s 1) y = pn at hr hpn
  generalize hHv : pgm_read_byte s 1 = H at hh hpn hH
  generalize hWv : pgm_read_byte s 0 = W
  generalize hov : y % 8 = o at ho hsplit hpn
  by_cases hr0 : r = 0
  · subst hr0
    rw [if_pos (by omega), Nat.mod_mod, testBit_shl_byte _ _ _ hb]
    by_cases hob : o ≤ b
    · have h1 : (8 * 0 + b - o) / 8 = 0 := by omega
      have h2 : (8 * 0 + b - o) % 8 = b - o := by omega
      rw [if_pos (by omega), h1, h2]
      simp [hob, Nat.add_comm]
    · rw [if_neg (by omega)]
      simp [hob]
  · rw [if_neg (by omega)]
    have hsub1 : st + r - st = r := by omega
    rw [hsub1]
    have hand : ∀ v, v &&& 255 = v % 256 := fun v => Nat.and_pow_two_sub_one_eq_mod v 8
    by_cases hmid : r + 1 < pn
    · rw [if_pos (by omega), Nat.mod_mod, hand, testBit_mod256 _ _ hb, Nat.testBit_or,
        testBit_shr_byte _ _ _ (hB _) (by omega) hb, testBit_shl_byte _ _ _ hb]
      by_cases hbo : b < o
      · have h1 : (8 * r + b - o) / 8 = r - 1 := by omega
        have h2 : (8 * r + b - o) % 8 = 8 + b - o := by omega
        have hcond : o ≤ 8 * r + b ∧ 8 * r + b - o < 8 * ((H - 1) / 8 + 1) := by
          split at hpn <;> omega
        rw [if_pos hcond, h1, h2]
        have hnot : ¬ o ≤ b := by omega
        simp [hbo, hnot, Nat.add_comm c 2]
      · have h1 : (8 * r + b - o) / 8 = r := by omega
        have h2 : (8 * r + b - o) % 8 = b - o := by omega
        have hcond : o ≤ 8 * r + b ∧ 8 * r + b - o < 8 * ((H - 1) / 8 + 1) := by
          split at hpn <;> omega
        rw [if_pos hcond, h1, h2]
        have hle : o ≤ b := by omega
        simp [hbo, hle, Nat.add_comm c 2]
    · rw [if_neg (by omega)]
      by_cases ho0 : o = 0
      · rw [if_neg (not_not.mpr (hsplit.mpr ho0)), testBit_mod256 _ _ hb]
        have h1 : (8 * r + b - o) / 8 = r := by omega
        have h2 : (8 * r + b - o) % 8 = b := by omega
        have hcond : o ≤ 8 * r + b ∧ 8 * r + b - o < 8 * ((H - 1) / 8 + 1) := by
          rw [if_pos ho0] at hpn; omega
        rw [if_pos hcond, h1, h2, Nat.add_comm c 2]
      · rw [if_pos (fun h => ho0 (hsplit.mp h)), Nat.mod_mod,
          testBit_shr_byte _ _ _ (hB _) (by omega) hb]
        rw [if_neg ho0] at hpn
        by_cases hbo : b < o
        · have h1 : (8 * r + b - o) / 8 = r - 1 := by omega
          have h2 : (8 * r + b - o) % 8 = 8 + b - o := by omega
          rw [if_pos (by omega), h1, h2]
          simp [hbo, Nat.add_comm c 2]
        · rw [if_neg (by omega)]
          simp [hbo]

/-- C14: for every bitmap `s` of width `w = s[0]` and height `h = s[1] ≥ 1` with
`n = (h-1)/8 + 1` source bands, every `y` with `o = y mod 8`, every relative
page `r` below `pagesNeeded`, every column `c < w` and every bit `b` in
`0..7`: the data byte that `drawBitmap` sends for page `r`, column `c` (data
byte number `r * w + c`) fits in 8 bits, and its bit `b` is bit `k mod 8` of
`s[2 + c + (k/8) * w]` with `k = 8r + b - o` when `0 ≤ k < 8n`, and is `0`
otherwise. -/
theorem drawBitmap_blit (self : TinySH1106) (s : Nat → Nat) (x y : Nat) (w : Wire)
    (r c b : Nat) (hy : y < 256) (hh : 1 ≤ pgm_read_byte s 1)
    (hr : r < pagesNeeded (pgm_read_byte s 1) y) (hc : c < pgm_read_byte s 0) (hb : b < 8) :
    ∃ byte,
      (dataBytes ((self.drawBitmap s x y w).sent.drop w.sent.length))[r * pgm_read_byte s 0 + c]?
        = some byte ∧
      byte < 256 ∧
      byte.testBit b =
        if y % 8 ≤ 8 * r + b ∧ 8 * r + b - y % 8 < 8 * ((pgm_read_byte s 1 - 1) / 8 + 1) then
          (pgm_read_byte s (2 + c + ((8 * r + b - y % 8) / 8) * pgm_read_byte s 0)).testBit
            ((8 * r + b - y % 8) % 8)
        else false :=
  ⟨_, drawBitmap_data_byte self s x y w r c hy hr hc, Nat.mod_lt _ (by decide),
    drawBitmapByte_testBit s y r c b hy hh hr hb⟩

/-- Instance of C14: a one-column bitmap of height `10` (bands `0x81`, `0x03`) drawn
at `y = 4`; bit `1` of the byte of page `1` is bit `5` of the first band. -/
theorem drawBitmap_blit_witness :
    ∃ byte,
      (dataBytes ((sampleDriver.drawBitmap (byteArray [1, 10, 0x81, 0x03]) 0 4 idleWire).sent.drop
          idleWire.sent.length))[1 * pgm_read_byte (byteArray [1, 10, 0x81, 0x03]) 0 + 0]?
        = some byte ∧
      byte < 256 ∧
      byte.testBit 1 =
        if 4 % 8 ≤ 8 * 1 + 1 ∧
            8 * 1 + 1 - 4 % 8 < 8 * ((pgm_read_byte (byteArray [1, 10, 0x81, 0x03]) 1 - 1) / 8 + 1) then
          (pgm_read_byte (byteArray [1, 10, 0x81, 0x03])
            (2 + 0 + ((8 * 1 + 1 - 4 % 8) / 8) * pgm_read_byte (byteArray [1, 10, 0x81, 0x03]) 0)).testBit
            ((8 * 1 + 1 - 4 % 8) % 8)
        else false :=
  drawBitmap_blit sampleDriver (byteArray [1, 10, 0x81, 0x03]) 0 4 idleWire 1 0 1
    (by decide) (by decide) (by decide) (by decide) (by decide)

/-! ## Theorems: the source reads of drawBitmap -/

theorem band_index_lt (col W k n : Nat) (hcol : col < W) (hk : k + 1 ≤ n) :
    (col + 2) + k * W < 2 + W * n := by
  have h1 : (k + 1) * W ≤ n * W := Nat.mul_le_mul_right W hk
  rw [Nat.succ_mul, Nat.mul_comm n W] at h1
  omega

theorem drawBitmapByteReads_lt (s : Nat → Nat) (y r col : Nat) (hy : y < 256)
    (hh : 1 ≤ pgm_read_byte s 1) (hr : r < pagesNeeded (pgm_read_byte s 1) y)
    (hcol : col < pgm_read_byte s 0) :
    ∀ i ∈ drawBitmapByteReads s (drawBitmapReg y) (pagesNeeded (pgm_read_byte s 1) y)
        (GET_PAGE_START (drawBitmapReg y) + r) col,
      i < 2 + pgm_read_byte s 0 * ((pgm_read_byte s 1 - 1) / 8 + 1) := by
  obtain ⟨-, -, hsplit, -⟩ := drawBitmapReg_fields y hy
  have hpn := pagesNeeded_eq (pgm_read_byte s 1) y (Nat.mod_lt _ (by decide)) hy
  unfold drawBitmapByteReads
  generalize GET_PAGE_START (drawBitmapReg y) = st
  generalize hpnv : pagesNeeded (pgm_read_byte s 1) y = pn at hr hpn
  generalize hHv : pgm_read_byte s 1 = H at hh hpn
  generalize hWv : pgm_read_byte s 0 = W at hcol
  generalize hov : y % 8 = o at hsplit hpn
  have hbase : 0 < 2 + W * ((H - 1) / 8 + 1) := by omega
  have hsub1 : st + r - st = r := by omega
  intro i hi
  by_cases hr0 : r = 0
  · subst hr0
    rw [if_pos (by omega)] at hi
    simp only [List.mem_singleton] at hi
    subst hi
    have := band_index_lt col W 0 ((H - 1) / 8 + 1) hcol (by omega)
    omega
  · rw [if_neg (by omega), hsub1] at hi
    have hprev : (col + 2) + (r - 1) * W < 2 + W * ((H - 1) / 8 + 1) :=
      band_index_lt col W (r - 1) _ hcol (by split at hpn <;> omega)
    by_cases hmid : r + 1 < st + pn - st
    · rw [if_pos (by omega)] at hi
      have hcur : (col + 2) + r * W < 2 + W * ((H - 1) / 8 + 1) :=
        band_index_lt col W r _ hcol (by split at hpn <;> omega)
      simp only [List.mem_cons, List.mem_singleton, List.mem_nil_iff, or_false] at hi
      rcases hi with rfl | rfl | rfl | rfl <;> assumption
    · rw [if_neg (by omega)] at hi
      by_cases ho0 : o = 0
      · rw [if_neg (not_not.mpr (hsplit.mpr ho0))] at hi
        have hcur : (col + 2) + r * W < 2 + W * ((H - 1) / 8 + 1) :=
          band_index_lt col W r _ hcol (by rw [if_pos ho0] at hpn; omega)
        simp only [List.mem_cons, List.mem_singleton, List.mem_nil_iff, or_false] at hi
        rcases hi with rfl | rfl <;> assumption
      · rw [if_pos (fun h => ho0 (hsplit.mp h))] at hi
        simp only [List.mem_cons, List.mem_singleton, List.mem_nil_iff, or_false] at hi
        rcases hi with rfl | rfl <;> assumption

theorem drawBitmapReads_lt (s : Nat → Nat) (y : Nat) (hh : 1 ≤ pgm_read_byte s 1) :
    ∀ i ∈ drawBitmapReads s y, i < 2 + pgm_read_byte s 0 * ((pgm_read_byte s 1 - 1) / 8 + 1) := by
  have hy : y % 256 < 256 := Nat.mod_lt _ (by decide)
  intro i hi
  unfold drawBitmapReads at hi
  rw [List.mem_append] at hi
  rcases hi with hi | hi
  · simp only [List.mem_cons, List.mem_singleton, List.mem_nil_iff, or_false] at hi
    omega
  · rw [List.mem_flatMap] at hi
    obtain ⟨p, hp, hi⟩ := hi
    rw [List.mem_range'_1] at hp
    rw [List.mem_append] at hi
    rcases hi with hi | hi
    · rw [List.mem_flatMap] at hi
      obtain ⟨col, hcol, hi⟩ := hi
      rw [List.mem_range] at hcol
      rw [List.mem_cons] at hi
      rcases hi with rfl | hi
      · omega
      · have hp' : p = GET_PAGE_START (drawBitmapReg (y % 256))
            + (p - GET_PAGE_START (drawBitmapReg (y % 256))) := by omega
        rw [hp'] at hi
        exact drawBitmapByteReads_lt s (y % 256) _ col hy hh (by omega) hcol i hi
    · simp only [List.mem_singleton] at hi
      omega

/-- The byte computed for a page and column depends on `s` only through the
entries at index `0` and at the indices listed by `drawBitmapByteReads`. -/
theorem drawBitmapByte_congr (s s' : Nat → Nat) (reg pn p col : Nat) (h0 : s' 0 = s 0)
    (hagree : ∀ i ∈ drawBitmapByteReads s reg pn p col, s' i = s i) :
    TinySH1106.drawBitmapByte s' reg pn p col 0 = TinySH1106.drawBitmapByte s reg pn p col 0 := by
  have hW : pgm_read_byte s' 0 = pgm_read_byte s 0 := by simp [pgm_read_byte, h0]
  unfold drawBitmapByteReads at hagree
  unfold TinySH1106.drawBitmapByte
  rw [hW]
  split_ifs at hagree ⊢ with h1 h2 h3
  all_goals
    simp only [List.forall_mem_cons, List.not_mem_nil, false_implies, implies_true, and_true,
      pgm_read_byte] at hagree
    simp only [pgm_read_byte, hagree]

theorem drawBitmapOps_congr (self : TinySH1106) (s s' : Nat → Nat) (x y : Nat)
    (hh : 1 ≤ pgm_read_byte s 1)
    (hagree : ∀ i < 2 + pgm_read_byte s 0 * ((pgm_read_byte s 1 - 1) / 8 + 1), s' i = s i) :
    drawBitmapOps self s' x y = drawBitmapOps self s x y := by
  have hy : y % 256 < 256 := Nat.mod_lt _ (by decide)
  have h0 : s' 0 = s 0 := hagree 0 (by omega)
  have h1 : s' 1 = s 1 := hagree 1 (by omega)
  have hW : pgm_read_byte s' 0 = pgm_read_byte s 0 := by simp [pgm_read_byte, h0]
  have hH : pgm_read_byte s' 1 = pgm_read_byte s 1 := by simp [pgm_read_byte, h1]
  unfold drawBitmapOps
  rw [hH]
  apply List.flatMap_congr
  intro p hp
  rw [List.mem_range'_1] at hp
  unfold drawBitmapPageOps
  rw [hW]
  congr 2
  apply List.flatMap_congr
  intro col hcol
  rw [List.mem_range] at hcol
  have hp' : p = GET_PAGE_START (drawBitmapReg (y % 256))
      + (p - GET_PAGE_START (drawBitmapReg (y % 256))) := by omega
  rw [drawBitmapByte_congr s s' _ _ p col h0 (fun i hi => by
    rw [hp'] at hi
    exact hagree i (drawBitmapByteReads_lt s (y % 256) _ col hy hh (by omega) hcol i hi))]

/-- C19: for every bitmap `s` with width `w = s[0]` and height `h = s[1] ≥ 1` and
every `y`, every index at which `drawBitmap` reads `s` (header, loop tests,
first, middle and last pages, split or not) is below
`2 + w * ((h-1)/8 + 1)`; accordingly the bus operations of `drawBitmap` are the
same for any array that agrees with `s` below that bound. -/
theorem drawBitmap_reads_inside (s : Nat → Nat) (y : Nat) (hh : 1 ≤ pgm_read_byte s 1) :
    (∀ i ∈ drawBitmapReads s y,
      i < 2 + pgm_read_byte s 0 * ((pgm_read_byte s 1 - 1) / 8 + 1)) ∧
    (∀ s' : Nat → Nat,
      (∀ i < 2 + pgm_read_byte s 0 * ((pgm_read_byte s 1 - 1) / 8 + 1), s' i = s i) →
      ∀ (self : TinySH1106) (x : Nat) (w : Wire),
        (self.drawBitmap s' x y w).sent = (self.drawBitmap s x y w).sent) := by
  refine ⟨drawBitmapReads_lt s y hh, ?_⟩
  intro s' hagree self x w
  rw [TinySH1106.drawBitmap_sent, TinySH1106.drawBitmap_sent,
    drawBitmapOps_congr self s s' x y hh hagree]

/-- Instance of C19: a two-column bitmap of height `10` drawn at `y = 4` reads
index `5`, which is below `2 + 2 * 2 = 6`. -/
theorem drawBitmap_reads_inside_witness :
    5 ∈ drawBitmapReads (byteArray [2, 10, 1, 2, 3, 4]) 4 ∧
    5 < 2 + pgm_read_byte (byteArray [2, 10, 1, 2, 3, 4]) 0
          * ((pgm_read_byte (byteArray [2, 10, 1, 2, 3, 4]) 1 - 1) / 8 + 1) :=
  ⟨by decide,
    (drawBitmap_reads_inside (byteArray [2, 10, 1, 2, 3, 4]) 4 (by decide)).1 5 (by decide)⟩

/-! ## Theorems: lookupTable on well-formed tables -/

theorem toU16_lt (v : Int) : toU16 v < 65536 := by
  unfold toU16; omega

theorem toU16_cast (v : Int) (h1 : -32768 ≤ v) (h2 : v ≤ 32767) :
    (toU16 v : Int) = if 0 ≤ v then v else v + 65536 := by
  unfold toU16
  split <;> omega

theorem toI16_toU16 (v : Int) (h1 : -32768 ≤ v) (h2 : v ≤ 32767) : toI16 (toU16 v) = v := by
  have h := toU16_cast v h1 h2
  have hlt := toU16_lt v
  unfold toI16
  rw [Nat.mod_eq_of_lt hlt]
  split at h <;> split <;> omega

theorem toI16_add (v : Int) (d : Nat) (h1 : -32768 ≤ v) (h2 : v + d ≤ 32767) :
    toI16 (toU16 v + d) = v + d := by
  have h := toU16_cast v h1 (by omega)
  unfold toI16
  split at h <;> split <;> omega

theorem toI16_sub (v : Int) (d : Nat) (h1 : -32768 ≤ v - d) (h2 : v ≤ 32767) (hd : d < 65536) :
    toI16 (toU16 v + 65536 - d) = v - d := by
  have h := toU16_cast v (by omega) h2
  unfold toI16
  split at h <;> split <;> omega

theorem toU16_sub (a b : Int) (ha1 : -32768 ≤ a) (ha2 : a ≤ 32767) (hb1 : -32768 ≤ b)
    (hb2 : b ≤ 32767) (hlt : toU16 b ≤ toU16 a) : toU16 (a - b) = toU16 a - toU16 b := by
  have h1 := toU16_cast a ha1 ha2
  have h2 := toU16_cast b hb1 hb2
  have h3 : ((toU16 (a - b) : Nat) : Int) = (a - b) % 65536 := by
    unfold toU16; omega
  split at h1 <;> split at h2 <;> omega

theorem pgm_read_word_eq (tbl : List Int) (i : Nat) (h : i < tbl.length) :
    pgm_read_word tbl i = some (toU16 (tbl.getD i 0)) := by
  simp [pgm_read_word, List.getD, List.getElem?_eq_getElem h]

theorem searchLoop_spec (tbl : List Int) (q : Int) (h0 : toU16 (tblX tbl 0) < toU16 q) :
    ∀ (j fuel : Nat), j < fuel → 2 * j + 1 < tbl.length → 2 * j + 1 < 65536 →
      ∃ i, i ≤ j ∧ searchLoop tbl q fuel (2 * j + 1) = some (2 * i + 1) ∧
        toU16 (tblX tbl i) < toU16 q ∧ ∀ k, i < k → k ≤ j → toU16 q ≤ toU16 (tblX tbl k) := by
  intro j
  induction j with
  | zero =>
    intro fuel hf hlen _
    obtain ⟨f, rfl⟩ : ∃ f, fuel = f + 1 := ⟨fuel - 1, by omega⟩
    refine ⟨0, le_refl _, ?_, h0, fun k h1 h2 => by omega⟩
    unfold searchLoop
    rw [pgm_read_word_eq tbl _ hlen]
    simp only []
    rw [if_neg (by unfold tblX at h0; omega)]
  | succ j ih =>
    intro fuel hf hlen h16
    obtain ⟨f, rfl⟩ : ∃ f, fuel = f + 1 := ⟨fuel - 1, by omega⟩
    unfold searchLoop
    rw [pgm_read_word_eq tbl _ hlen]
    simp only []
    by_cases hle : toU16 q ≤ toU16 (tblX tbl (j + 1))
    · rw [if_pos (by unfold tblX at hle; exact hle)]
      have hidx : (2 * (j + 1) + 1 + 65534) % 65536 = 2 * j + 1 := by omega
      rw [hidx]
      obtain ⟨i, hij, hs, hlt, hall⟩ := ih f (by omega) (by omega) (by omega)
      refine ⟨i, by omega, hs, hlt, ?_⟩
      intro k hk1 hk2
      by_cases hkj : k = j + 1
      · subst hkj; exact hle
      · exact hall k hk1 (by omega)
    · rw [if_neg (by unfold tblX at hle; exact hle)]
      exact ⟨j + 1, le_refl _, rfl, by omega, fun k h1 h2 => by omega⟩

theorem wrapped_quotient_le (dy dIn delBP : Nat) (h : dIn ≤ delBP) (hpos : 0 < delBP) :
    ((dy * dIn) % 65536 / delBP) % 65536 ≤ dy :=
  calc ((dy * dIn) % 65536 / delBP) % 65536
      ≤ (dy * dIn) % 65536 / delBP := Nat.mod_le _ _
    _ ≤ (dy * dIn) / delBP := Nat.div_le_div_right (Nat.mod_le _ _)
    _ ≤ (dy * delBP) / delBP := Nat.div_le_div_right (Nat.mul_le_mul_left dy h)
    _ = dy := Nat.mul_div_cancel dy hpos

theorem interpolate_bounded (q xL yL yU : Int) (uxN : Nat)
    (hq1 : -32768 ≤ q) (hq2 : q ≤ 32767) (hx1 : -32768 ≤ xL) (hx2 : xL ≤ 32767)
    (hyL1 : -32768 ≤ yL) (hyL2 : yL ≤ 32767) (hyU1 : -32768 ≤ yU) (hyU2 : yU ≤ 32767)
    (hlo : toU16 xL < toU16 q) (hhi : toU16 q ≤ uxN) (hN : uxN < 65536) :
    ∃ r, interpolate q xL yL yU uxN = some r ∧ min yL yU ≤ r ∧ r ≤ max yL yU := by
  have hIn : toU16 (q - xL) = toU16 q - toU16 xL :=
    toU16_sub q xL hq1 hq2 hx1 hx2 (by omega)
  have hBP : (uxN + 65536 - toU16 xL) % 65536 = uxN - toU16 xL := by
    have := toU16_lt xL
    omega
  unfold interpolate
  simp only [hIn, hBP]
  rw [if_neg (by omega)]
  by_cases hrise : yU > yL
  · rw [if_pos hrise]
    have hdy : ((toU16 (yU - yL) : Nat) : Int) = yU - yL := by unfold toU16; omega
    have hD := wrapped_quotient_le (toU16 (yU - yL)) (toU16 q - toU16 xL) (uxN - toU16 xL)
      (by omega) (by omega)
    refine ⟨_, rfl, ?_, ?_⟩
    · rw [toI16_add yL _ hyL1 (by omega)]
      rw [min_eq_left (by omega)]
      omega
    · rw [toI16_add yL _ hyL1 (by omega)]
      rw [max_eq_right (by omega)]
      omega
  · rw [if_neg hrise]
    have hdy : ((toU16 (yL - yU) : Nat) : Int) = yL - yU := by unfold toU16; omega
    have hD := wrapped_quotient_le (toU16 (yL - yU)) (toU16 q - toU16 xL) (uxN - toU16 xL)
      (by omega) (by omega)
    have hlt : ((toU16 (yL - yU) * (toU16 q - toU16 xL)) % 65536 / (uxN - toU16 xL)) % 65536 < 65536 :=
      Nat.mod_lt _ (by decide)
    refine ⟨_, rfl, ?_, ?_⟩
    · rw [toI16_sub yL _ (by omega) hyL2 hlt]
      rw [min_eq_right (by omega)]
      omega
    · rw [toI16_sub yL _ (by omega) hyL2 hlt]
      rw [max_eq_left (by omega)]
      omega

theorem lookupTable_cases (tbl : List Int) (count : Nat) (q : Int)
    (hwf : WellFormedTable tbl count) :
    (toU16 (tblX tbl (count - 1)) ≤ toU16 q ∧ lookupTable tbl q = some (tblY tbl (count - 1))) ∨
    (toU16 q < toU16 (tblX tbl (count - 1)) ∧ toU16 q ≤ toU16 (tblX tbl 0) ∧
      lookupTable tbl q = some (tblY tbl 0)) ∨
    (∃ i, i + 1 < count ∧ toU16 (tblX tbl i) < toU16 q ∧ toU16 q ≤ toU16 (tblX tbl (i + 1)) ∧
      lookupTable tbl q =
        interpolate q (tblX tbl i) (tblY tbl i) (tblY tbl (i + 1)) (toU16 (tblX tbl (i + 1)))) := by
  obtain ⟨hcnt, h2, hlen, hrep, hasc⟩ := hwf
  have hrepD : ∀ i, -32768 ≤ tbl.getD i 0 ∧ tbl.getD i 0 ≤ 32767 := by
    intro i
    by_cases hi : i < tbl.length
    · rw [List.getD_eq_getElem _ _ hi]
      exact hrep _ (List.getElem_mem _)
    · rw [List.getD_eq_default _ _ (by omega)]
      omega
  have hc : count ≤ 32767 := by
    have := (hrepD 0).2
    rw [hcnt] at this
    omega
  have hr0 : pgm_read_word tbl 0 = some count := by
    rw [pgm_read_word_eq tbl 0 (by omega), hcnt]
    congr 1
    unfold toU16
    omega
  have hidx : (count * 2 + 65535) % 65536 = 2 * (count - 1) + 1 := by omega
  have hidx1 : (2 * (count - 1) + 1 + 1) % 65536 = 2 * (count - 1) + 2 := by omega
  have hidx2 : (2 * (count - 1) + 1 + 65534) % 65536 = 2 * (count - 2) + 1 := by omega
  have hrd : ∀ i, i < 2 * count + 1 → pgm_read_word tbl i = some (toU16 (tbl.getD i 0)) :=
    fun i hi => pgm_read_word_eq tbl i (by omega)
  have hyread : ∀ i, i < 2 * count + 1 →
      Option.map toI16 (pgm_read_word tbl i) = some (tbl.getD i 0) := by
    intro i hi
    rw [hrd i hi, Option.map_some', toI16_toU16 _ (hrepD i).1 (hrepD i).2]
  have hunf : lookupTable tbl q =
      if toU16 q ≥ toU16 (tblX tbl (count - 1)) then some (tblY tbl (count - 1))
      else if toU16 q ≤ toU16 (tblX tbl 0) then some (tblY tbl 0)
      else
        (searchLoop tbl q 32768 (2 * (count - 2) + 1)).bind fun xIndex =>
          (pgm_read_word tbl xIndex).bind fun xw =>
            (Option.map toI16 (pgm_read_word tbl ((xIndex + 1) % 65536))).bind fun yLower =>
              (Option.map toI16 (pgm_read_word tbl ((xIndex + 3) % 65536))).bind fun yUpper =>
                if q = toI16 xw then pure yLower
                else
                  (pgm_read_word tbl ((xIndex + 2) % 65536)).bind fun xNext =>
                    interpolate q (toI16 xw) yLower yUpper xNext := by
    unfold lookupTable
    rw [hr0]
    simp only [Option.bind_eq_bind, Option.some_bind, hidx, hidx1, hidx2]
    rw [hrd _ (by omega), hrd 1 (by omega), hrd 2 (by omega), hrd (2 * (count - 1) + 2) (by omega)]
    simp only [Option.some_bind, pure, toI16_toU16 _ (hrepD _).1 (hrepD _).2]
    rfl
  rw [hunf]
  by_cases hA : toU16 q ≥ toU16 (tblX tbl (count - 1))
  · left
    exact ⟨hA, if_pos hA⟩
  · right
    rw [if_neg hA]
    by_cases hB : toU16 q ≤ toU16 (tblX tbl 0)
    · left
      exact ⟨by omega, hB, if_pos hB⟩
    · right
      rw [if_neg hB]
      obtain ⟨i, hij, hs, hlt, hall⟩ :=
        searchLoop_spec tbl q (by omega) (count - 2) 32768 (by omega) (by omega) (by omega)
      have hnext : toU16 q ≤ toU16 (tblX tbl (i + 1)) := by
        by_cases hi : i = count - 2
        · have : i + 1 = count - 1 := by omega
          rw [this]; omega
        · exact hall (i + 1) (by omega) (by omega)
      refine ⟨i, by omega, hlt, hnext, ?_⟩
      have e1 : (2 * i + 1 + 1) % 65536 = 2 * i + 2 := by omega
      have e2 : (2 * i + 1 + 3) % 65536 = 2 * (i + 1) + 2 := by omega
      have e3 : (2 * i + 1 + 2) % 65536 = 2 * (i + 1) + 1 := by omega
      rw [hs]
      simp only [Option.some_bind, e1, e2, e3]
      rw [hrd _ (by omega), hyread _ (by omega), hyread _ (by omega), hrd _ (by omega)]
      simp only [Option.some_bind]
      have hxi : toI16 (toU16 (tbl.getD (2 * i + 1) 0)) = tblX tbl i :=
        toI16_toU16 _ (hrepD _).1 (hrepD _).2
      rw [hxi]
      have hne : q ≠ tblX tbl i := by
        intro h
        rw [h] at hlt
        omega
      rw [if_neg hne]
      rfl

theorem wellFormed_getD (tbl : List Int) (count : Nat) (hwf : WellFormedTable tbl count) (i : Nat) :
    -32768 ≤ tbl.getD i 0 ∧ tbl.getD i 0 ≤ 32767 := by
  by_cases hi : i < tbl.length
  · rw [List.getD_eq_getElem _ _ hi]
    exact hwf.representable _ (List.getElem_mem _)
  · rw [List.getD_eq_default _ _ (by omega)]
    omega

/-- The global bound of `lookupTable`: for every well-formed table and every query
representable in the 16-bit `int`, a value `r` is returned; `r` is `y_0` or
`y_last` (one of the two clamp branches was taken, whatever the query), or
there is a segment `i` with `x_i < lookup ≤ x_(i+1)` and `r` between
`min(y_i, y_(i+1))` and `max(y_i, y_(i+1))`; in every case `r` lies between
two ordinates of the table. -/
theorem lookupTable_bounded (tbl : List Int) (count : Nat) (q : Int)
    (hwf : WellFormedTable tbl count) (hq1 : -32768 ≤ q) (hq2 : q ≤ 32767) :
    ∃ r, lookupTable tbl q = some r ∧
      (r = tblY tbl 0 ∨ r = tblY tbl (count - 1) ∨
        ∃ i, i + 1 < count ∧ tblX tbl i < q ∧ q ≤ tblX tbl (i + 1) ∧
          min (tblY tbl i) (tblY tbl (i + 1)) ≤ r ∧ r ≤ max (tblY tbl i) (tblY tbl (i + 1))) ∧
      (∃ i, i < count ∧ tblY tbl i ≤ r) ∧ (∃ j, j < count ∧ r ≤ tblY tbl j) := by
  have h2 := hwf.two_le
  rcases lookupTable_cases tbl count q hwf with ⟨-, hL⟩ | ⟨-, -, hL⟩ | ⟨i, hi, hlo, hhi, hL⟩
  · exact ⟨_, hL, Or.inr (Or.inl rfl), ⟨count - 1, by omega, le_refl _⟩,
      ⟨count - 1, by omega, le_refl _⟩⟩
  · exact ⟨_, hL, Or.inl rfl, ⟨0, by omega, le_refl _⟩, ⟨0, by omega, le_refl _⟩⟩
  · have hxi : -32768 ≤ tblX tbl i ∧ tblX tbl i ≤ 32767 :=
      wellFormed_getD tbl count hwf (2 * i + 1)
    have hxn : -32768 ≤ tblX tbl (i + 1) ∧ tblX tbl (i + 1) ≤ 32767 :=
      wellFormed_getD tbl count hwf (2 * (i + 1) + 1)
    have hyi : -32768 ≤ tblY tbl i ∧ tblY tbl i ≤ 32767 :=
      wellFormed_getD tbl count hwf (2 * i + 2)
    have hyn : -32768 ≤ tblY tbl (i + 1) ∧ tblY tbl (i + 1) ≤ 32767 :=
      wellFormed_getD tbl count hwf (2 * (i + 1) + 2)
    obtain ⟨r, hr, hmin, hmax⟩ := interpolate_bounded q (tblX tbl i) (tblY tbl i)
      (tblY tbl (i + 1)) (toU16 (tblX tbl (i + 1))) hq1 hq2 hxi.1 hxi.2 hyi.1 hyi.2 hyn.1 hyn.2
      hlo hhi (toU16_lt _)
    have hasc := hwf.ascending i hi
    have c1 := toU16_cast (tblX tbl i) hxi.1 hxi.2
    have c2 := toU16_cast (tblX tbl (i + 1)) hxn.1 hxn.2
    have c3 := toU16_cast q hq1 hq2
    have hbr : tblX tbl i < q ∧ q ≤ tblX tbl (i + 1) := by
      split at c1 <;> split at c2 <;> split at c3 <;> omega
    refine ⟨r, hL.trans hr, Or.inr (Or.inr ⟨i, hi, hbr.1, hbr.2, hmin, hmax⟩), ?_, ?_⟩
    · rcases min_choice (tblY tbl i) (tblY tbl (i + 1)) with h | h
      · exact ⟨i, by omega, by rw [← h]; exact hmin⟩
      · exact ⟨i + 1, hi, by rw [← h]; exact hmin⟩
    · rcases max_choice (tblY tbl i) (tblY tbl (i + 1)) with h | h
      · exact ⟨i, by omega, by rw [← h]; exact hmax⟩
      · exact ⟨i + 1, hi, by rw [← h]; exact hmax⟩

theorem risingTable_wellFormed : WellFormedTable risingTable 2 where
  count_eq := by decide
  two_le := by decide
  length_eq := by decide
  representable := by decide
  ascending := by
    intro i hi
    obtain rfl : i = 0 := by omega
    decide

theorem mixedSignTable_wellFormed : WellFormedTable mixedSignTable 2 where
  count_eq := by decide
  two_le := by decide
  length_eq := by decide
  representable := by decide
  ascending := by
    intro i hi
    obtain rfl : i = 0 := by omega
    decide

/-- The global bound at the table `[(0,0),(10,100)]` and the query `5`. -/
theorem lookupTable_bounded_witness :
    ∃ r, lookupTable risingTable 5 = some r ∧
      (r = tblY risingTable 0 ∨ r = tblY risingTable (2 - 1) ∨
        ∃ i, i + 1 < 2 ∧ tblX risingTable i < 5 ∧ 5 ≤ tblX risingTable (i + 1) ∧
          min (tblY risingTable i) (tblY risingTable (i + 1)) ≤ r ∧
          r ≤ max (tblY risingTable i) (tblY risingTable (i + 1))) ∧
      (∃ i, i < 2 ∧ tblY risingTable i ≤ r) ∧ (∃ j, j < 2 ∧ r ≤ tblY risingTable j) :=
  lookupTable_bounded risingTable 2 5 risingTable_wellFormed (by decide) (by decide)

/-- When the two clamp tests fail, the search loop run by `lookupTable` on a
well-formed table exits at an index `2i+1` with `x_i < lookup ≤ x_(i+1)`, and
the result is the interpolation on that segment. -/
theorem bracket_search_when_reached (tbl : List Int) (count : Nat) (q : Int)
    (hwf : WellFormedTable tbl count) (hq1 : -32768 ≤ q) (hq2 : q ≤ 32767)
    (hlo : toU16 (tblX tbl 0) < toU16 q) (hhi : toU16 q < toU16 (tblX tbl (count - 1))) :
    ∃ i, i + 1 < count ∧ tblX tbl i < q ∧ q ≤ tblX tbl (i + 1) ∧
      lookupTable tbl q =
        interpolate q (tblX tbl i) (tblY tbl i) (tblY tbl (i + 1)) (toU16 (tblX tbl (i + 1))) := by
  rcases lookupTable_cases tbl count q hwf with ⟨h, -⟩ | ⟨-, h, -⟩ | ⟨i, hi, hlo', hhi', hL⟩
  · omega
  · omega
  · have hxi : -32768 ≤ tblX tbl i ∧ tblX tbl i ≤ 32767 :=
      wellFormed_getD tbl count hwf (2 * i + 1)
    have hxn : -32768 ≤ tblX tbl (i + 1) ∧ tblX tbl (i + 1) ≤ 32767 :=
      wellFormed_getD tbl count hwf (2 * (i + 1) + 1)
    have hasc := hwf.ascending i hi
    have c1 := toU16_cast (tblX tbl i) hxi.1 hxi.2
    have c2 := toU16_cast (tblX tbl (i + 1)) hxn.1 hxn.2
    have c3 := toU16_cast q hq1 hq2
    refine ⟨i, hi, ?_, ?_, hL⟩
    · split at c1 <;> split at c2 <;> split at c3 <;> omega
    · split at c1 <;> split at c2 <;> split at c3 <;> omega

/-- C17 fails on the code: the table `[(-10,0),(10,100)]` is well formed and the
query `0` lies strictly between `x_0 = -10` and `x_last = 10`, yet no bracket
search takes place: the lower clamp test `lookup <= pgm_read_word(&tblPtr[1])`
compares `0` with the unsigned word `65526` and succeeds, and `lookupTable`
returns `y_0 = 0`, whereas the interpolation on the segment
`(-10,0)-(10,100)` gives `50`. -/
theorem bracket_search_skipped_on_mixed_signs :
    WellFormedTable mixedSignTable 2 ∧
    tblX mixedSignTable 0 < 0 ∧ 0 < tblX mixedSignTable 1 ∧
    toU16 0 ≤ toU16 (tblX mixedSignTable 0) ∧
    lookupTable mixedSignTable 0 = some 0 ∧
    interpolate 0 (tblX mixedSignTable 0) (tblY mixedSignTable 0) (tblY mixedSignTable 1)
      (toU16 (tblX mixedSignTable 1)) = some 50 :=
  ⟨mixedSignTable_wellFormed, by decide, by decide, by decide, by decide, by decide⟩

/-! ## Theorems: what print sends -/

namespace TinySH1106

theorem PlotCharCol_sent (self : TinySH1106) (f : Font) (c p : Nat) (w : Wire) (col : Nat) :
    (PlotCharCol self f c p w col).sent =
      w.sent ++ [BusOp.requestFrom self.wireAddr 2,
        dataOp self (pgm_read_byte (f.CharMap (f.CHAR_INDEX (toI8 c))) (col + p * f.FONT_WIDTH))] := by
  unfold PlotCharCol
  rw [sendData_sent, readData_sent]
  simp

theorem PlotCharPage_sent (self : TinySH1106) (f : Font) (c x y : Nat) (w : Wire) (p : Nat) :
    (PlotCharPage self f c x y w p).sent = w.sent ++ PlotCharPageOps self f c x y p := by
  unfold PlotCharPage PlotCharPageOps
  simp only [sendCommand_sent]
  rw [foldl_sent _ _ (PlotCharCol_sent self f c p)]
  simp [sendCommand_sent, setCol_sent, setPage_sent, List.append_assoc]

theorem PlotChar_sent (self : TinySH1106) (f : Font) (c x y : Nat) (w : Wire) :
    (self.PlotChar f c x y w).sent = w.sent ++ PlotCharOps self f c x y := by
  unfold PlotChar PlotCharOps
  rw [foldl_sent _ _ (PlotCharPage_sent self f c x y)]
  simp [List.range_succ, List.flatMap_cons]

end TinySH1106

theorem selectedPages_append (a b : List BusOp) :
    selectedPages (a ++ b) = selectedPages a ++ selectedPages b := by
  simp [selectedPages, List.filterMap_append]

theorem selectedPages_PlotCharPageOps (self : TinySH1106) (f : Font) (c x y p : Nat) :
    selectedPages (PlotCharPageOps self f c x y p) = [(p + y) % 8] := by
  have h7 : (p + y) &&& 0x07 = (p + y) % 8 := Nat.and_pow_two_sub_one_eq_mod (p + y) 3
  obtain ⟨h1, h2⟩ := page_select_byte ((p + y) % 8) (Nat.mod_lt _ (by decide))
  unfold PlotCharPageOps
  have hcols := selectedPages_columns self
    (fun col => pgm_read_byte (f.CharMap (f.CHAR_INDEX (toI8 c))) (col + p * f.FONT_WIDTH))
    (List.range f.FONT_WIDTH)
  rw [selectedPages_append, selectedPages_append, hcols]
  unfold selectedPages
  simp only [SET_PAGE] at h1 h2
  simp [List.filterMap_cons, commandOp, setColOp, h7, h1, h2, RMW, RMW_END, SINGLE_COMMAND,
    MULTI_COMMAND, SET_PAGE]
  decide

theorem dataBytes_PlotCharPageOps (self : TinySH1106) (f : Font) (c x y p : Nat) :
    dataBytes (PlotCharPageOps self f c x y p) =
      (List.range f.FONT_WIDTH).map
        (fun col => pgm_read_byte (f.CharMap (f.CHAR_INDEX (toI8 c))) (col + p * f.FONT_WIDTH)) := by
  unfold PlotCharPageOps
  rw [dataBytes_append, dataBytes_append, dataBytes_columns]
  simp [dataBytes, commandOp, setColOp, SINGLE_COMMAND, SINGLE_DATA, MULTI_COMMAND, pgm_read_byte]

/-- C9, as amended: `print` draws through `PlotChar`. For a character array whose
first `n` bytes are nonzero, with `n = 132` or a zero byte at index `n`, the
bus state left by `print` is the one left by the calls
`PlotChar(c[j], xPos + j * (FONT_WIDTH + FONT_KERN), yPos)` for `j = 0 .. n-1`
in this order (the x position reduced to 8 bits), and what `print` has sent is
the concatenation of the operations of these calls; for a one-character string
it is the state left by `PlotChar(c[0], xPos, yPos)`, and what was sent is two
page passes: `yPos` is taken as a page index, the pages selected are
`(yPos + 0) & 7` and `(yPos + 1) & 7`, and the data bytes are the glyph bytes
`CharMap[CHAR_INDEX(c)][0 .. 2 * FONT_WIDTH - 1]` as stored, not shifted. -/
theorem print_draws_through_PlotChar (self : TinySH1106) (f : Font) (c : Nat → Nat) (w : Wire)
    (n : Nat) (hn : n ≤ 132) (hnz : ∀ j < n, c j % 256 ≠ 0) (hend : n = 132 ∨ c n % 256 = 0)
    (hx : self.xPos < 256) :
    (n = 1 → (self.print f c w).2 = self.PlotChar f (c 0 % 256) self.xPos self.yPos w) ∧
    (self.print f c w).2 =
      (List.range n).foldl
        (fun w j => self.PlotChar f (c j % 256)
          ((self.xPos + j * (f.FONT_WIDTH + f.FONT_KERN)) % 256) self.yPos w) w ∧
    (self.print f c w).2.sent =
      w.sent ++ (List.range n).flatMap
        (fun j => PlotCharOps self f (c j % 256)
          ((self.xPos + j * (f.FONT_WIDTH + f.FONT_KERN)) % 256) self.yPos) ∧
    (n = 1 →
      (self.print f c w).2.sent.drop w.sent.length =
        [BusOp.transmission self.wireAddr [0x80, (0xB0 ||| ((0 + self.yPos) &&& 0x07)) % 256],
         setColOp self self.xPos,
         BusOp.transmission self.wireAddr [0x80, 0xE0]]
        ++ (List.range f.FONT_WIDTH).flatMap
            (fun col => [BusOp.requestFrom self.wireAddr 2,
              BusOp.transmission self.wireAddr
                [0xC0, f.CharMap (f.CHAR_INDEX (toI8 (c 0 % 256))) (col + 0 * f.FONT_WIDTH) % 256]])
        ++ [BusOp.transmission self.wireAddr [0x80, 0xEE]]
        ++ ([BusOp.transmission self.wireAddr [0x80, (0xB0 ||| ((1 + self.yPos) &&& 0x07)) % 256],
             setColOp self self.xPos,
             BusOp.transmission self.wireAddr [0x80, 0xE0]]
            ++ (List.range f.FONT_WIDTH).flatMap
                (fun col => [BusOp.requestFrom self.wireAddr 2,
                  BusOp.transmission self.wireAddr
                    [0xC0, f.CharMap (f.CHAR_INDEX (toI8 (c 0 % 256))) (col + 1 * f.FONT_WIDTH) % 256]])
            ++ [BusOp.transmission self.wireAddr [0x80, 0xEE]]) ∧
      selectedPages ((self.print f c w).2.sent.drop w.sent.length) =
        [self.yPos % 8, (self.yPos + 1) % 8] ∧
      dataBytes ((self.print f c w).2.sent.drop w.sent.length) =
        (List.range f.FONT_WIDTH).map
            (fun col => f.CharMap (f.CHAR_INDEX (toI8 (c 0 % 256))) col % 256)
          ++ (List.range f.FONT_WIDTH).map
            (fun col => f.CharMap (f.CHAR_INDEX (toI8 (c 0 % 256))) (col + f.FONT_WIDTH) % 256)) := by
  have key := TinySH1106.printLoop_eq f c 132 n 0 self w hn
    (fun j hj => by simpa using hnz j hj) (by simpa using hend) hx
  have h2 : (self.print f c w).2 =
      (List.range n).foldl
        (fun w j => self.PlotChar f (c j % 256)
          ((self.xPos + j * (f.FONT_WIDTH + f.FONT_KERN)) % 256) self.yPos w) w := by
    unfold TinySH1106.print
    rw [key]
    simp
  have h3 : (self.print f c w).2.sent =
      w.sent ++ (List.range n).flatMap
        (fun j => PlotCharOps self f (c j % 256)
          ((self.xPos + j * (f.FONT_WIDTH + f.FONT_KERN)) % 256) self.yPos) := by
    rw [h2]
    exact foldl_sent
      (fun w j => self.PlotChar f (c j % 256)
        ((self.xPos + j * (f.FONT_WIDTH + f.FONT_KERN)) % 256) self.yPos w)
      (fun j => PlotCharOps self f (c j % 256)
        ((self.xPos + j * (f.FONT_WIDTH + f.FONT_KERN)) % 256) self.yPos)
      (fun w j => TinySH1106.PlotChar_sent self f (c j % 256)
        ((self.xPos + j * (f.FONT_WIDTH + f.FONT_KERN)) % 256) self.yPos w)
      (List.range n) w
  refine ⟨?_, h2, h3, ?_⟩
  · rintro rfl
    rw [h2]
    simp [List.range_succ, Nat.mod_eq_of_lt hx]
  · rintro rfl
    have hops : (self.print f c w).2.sent.drop w.sent.length =
        PlotCharOps self f (c 0 % 256) self.xPos self.yPos := by
      rw [h3, List.drop_left]
      simp [List.range_succ, Nat.mod_eq_of_lt hx]
    refine ⟨?_, ?_, ?_⟩
    · rw [hops]
      simp [PlotCharOps, PlotCharPageOps, commandOp, dataOp, pgm_read_byte, SINGLE_COMMAND,
        SINGLE_DATA, SET_PAGE, RMW, RMW_END]
    · rw [hops]
      unfold PlotCharOps
      rw [selectedPages_append, selectedPages_PlotCharPageOps, selectedPages_PlotCharPageOps]
      simp [Nat.add_comm]
    · rw [hops]
      unfold PlotCharOps
      rw [dataBytes_append, dataBytes_PlotCharPageOps, dataBytes_PlotCharPageOps]
      simp [pgm_read_byte]

/-- Instance of the amended C9: the one-character string "A" printed by the sample
driver with the sample font leaves the state of `PlotChar('A', 0, 0)`; the
pages selected are `0` and `1`. -/
theorem print_draws_through_PlotChar_witness :
    (sampleDriver.print sampleFont (byteArray [65]) idleWire).2 =
      sampleDriver.PlotChar sampleFont (byteArray [65] 0 % 256) sampleDriver.xPos
        sampleDriver.yPos idleWire ∧
    selectedPages ((sampleDriver.print sampleFont (byteArray [65]) idleWire).2.sent.drop
        idleWire.sent.length) = [sampleDriver.yPos % 8, (sampleDriver.yPos + 1) % 8] :=
  have key := print_draws_through_PlotChar sampleDriver sampleFont (byteArray [65]) idleWire 1
    (by decide) (by decide) (by decide) (by decide)
  ⟨key.1 rfl, (key.2.2.2 rfl).2.1⟩

/-! ## Theorems: the clamp on a table whose x values change sign -/

theorem fourPointTable_wellFormed : WellFormedTable fourPointTable 4 where
  count_eq := by decide
  two_le := by decide
  length_eq := by decide
  representable := by decide
  ascending := by
    intro i hi
    have h : i = 0 ∨ i = 1 ∨ i = 2 := by omega
    rcases h with rfl | rfl | rfl <;> decide

/-- C18 fails on the code: the table `[(-10,0),(-5,100),(10,50),(20,200)]` is well
formed and the query `0` is bracketed by the segment `(-5,100)-(10,50)`
(`x_1 = -5 < 0 ≤ 10 = x_2`), whose ordinates span `[50, 100]`; it is neither
at or below `x_0` nor at or above `x_last`. Yet the lower clamp test
`lookup <= pgm_read_word(&tblPtr[1])` compares `0` with the unsigned word
`65526` and succeeds, and `lookupTable` returns `y_0 = 0`, which is below
`min(y_1, y_2) = 50`. -/
theorem lookupTable_outside_bracketing_segment :
    WellFormedTable fourPointTable 4 ∧
    tblX fourPointTable 0 < 0 ∧ 0 < tblX fourPointTable 3 ∧
    tblX fourPointTable 1 < 0 ∧ 0 ≤ tblX fourPointTable 2 ∧
    min (tblY fourPointTable 1) (tblY fourPointTable 2) = 50 ∧
    max (tblY fourPointTable 1) (tblY fourPointTable 2) = 100 ∧
    toU16 0 < toU16 (tblX fourPointTable 3) ∧
    toU16 0 ≤ toU16 (tblX fourPointTable 0) ∧
    lookupTable fourPointTable 0 = some 0 ∧
    ¬ (min (tblY fourPointTable 1) (tblY fourPointTable 2) ≤ 0) :=
  ⟨fourPointTable_wellFormed, by decide, by decide, by decide, by decide, by decide, by decide,
    by decide, by decide, by decide, by decide⟩

end SWRMeter
